import Mathlib

/-!
# p2pd directory server: the session protocol of `p2p.c`

A shallow embedding of `src/server/p2p.c` and of the helpers of
`src/server/functions.c` it calls.

* C strings are lists of characters (the bytes before the terminating NUL).
  The fixed buffers of the program (`in[512]`, `out[512]`, `query[256]`) are
  taken to be large enough for the data at hand; what happens when they
  overflow is not described here.
* The socket is an explicit input and output: each `recv` call consumes one
  `Event` of the script, each `send_msg` call appends one text to `out`.
* The SQLite database is the explicit state `Catalog`, the rows of table
  `files` in insertion order.  The result code of `sqlite3_step` is a
  `Status`; a store failure is an input of the model (`FaultPlan`).
* The program builds each statement as text, pasting its arguments between
  quote characters (`'%s'`).  `sqlText` gives the value SQLite reads back
  from such a literal; a text with a quote character that is not doubled
  changes the statement itself and is treated as a statement that fails to
  prepare.
-/

namespace P2pd

/-! ## functions.c -/

/-- The function `clean_string`: copies the characters that are not a
backspace, a line feed or a carriage return, in order. -/
def clean_string : List Char → List Char
  | [] => []
  | c :: str =>
    if c ≠ '\x08' ∧ c ≠ '\n' ∧ c ≠ '\r' then c :: clean_string str
    else clean_string str

/-- The function `client_count`: adds `change` to the counter `c_count`;
returns the new counter (the state) and the returned value. -/
def client_count (c_count : Int) (change : Int) : Int × Int :=
  (c_count + change, c_count + change)

/-- The function `recv_msg`, applied to the bytes `recv` delivered into the
zeroed 1024-byte buffer: returns the byte count and the message that
`strcpy` copies, the bytes before the first NUL.  A read of zero bytes (and
a failed read, which leaves the buffer zeroed) gives the empty message. -/
def recv_msg (received : List Char) : Int × List Char :=
  ((received.length : Int), received.takeWhile (fun c => c != '\x00'))

/-- The C library test `isdigit` for the characters 0 to 9. -/
def isdigit (c : Char) : Bool := decide (48 ≤ c.toNat) && decide (c.toNat ≤ 57)

/-- The loop of `validate_int`, carrying the flag `isInt`. -/
def validate_int_loop : List Char → Int → Int
  | [], isInt => isInt
  | c :: string, isInt =>
    validate_int_loop string
      (if isInt = 1 then (if ¬ isdigit c then 0 else isInt) else isInt)

/-- The function `validate_int`: the flag starts at 1 and is cleared by the
first character that is not a digit. -/
def validate_int (string : List Char) : Int := validate_int_loop string 1

/-- Two-complement reading of the low 32 bits of an integer (conversion to
the C type `int`). -/
def wrap32 (n : Int) : Int := (n + 2 ^ 31) % 2 ^ 32 - 2 ^ 31

/-- Value of a run of decimal digits, most significant first. -/
def digitsValue (s : List Char) : Nat :=
  s.foldl (fun acc c => 10 * acc + (c.toNat - 48)) 0

/-- The C library function `atoi` on a token without sign or blanks, as the
GNU C library computes it: `strtol` reads the leading digits, saturates at
`LONG_MAX`, and the result is converted to `int`. -/
def atoi (s : List Char) : Int :=
  wrap32 (min (digitsValue (s.takeWhile isdigit)) (2 ^ 63 - 1) : Nat)

/-- The C library function `strtok` with the single delimiter blank.  The
argument is the text at the saved position; the result is the token (or
none, for NULL) and the new saved position.  Leading blanks are skipped, the
token runs to the next blank, and the scan resumes after that blank. -/
def strtok (s : List Char) : Option (List Char) × List Char :=
  let s1 := s.dropWhile (fun c => c == ' ')
  if s1 = [] then (none, [])
  else (some (s1.takeWhile (fun c => c != ' ')),
        (s1.dropWhile (fun c => c != ' ')).drop 1)

/-! ## The store: table `files` behind the SQLite calls -/

/-- One row of table `files`: the four values of the INSERT statement. -/
structure Row where
  file : List Char
  hash : List Char
  size : Int
  peer : List Char
deriving DecidableEq, Repr

/-- The rows of table `files`, oldest first. -/
abbrev Catalog := List Row

/-- Result codes of `sqlite3_step`, as far as the program tells them apart:
it compares with `SQLITE_DONE`, `SQLITE_CONSTRAINT` and `SQLITE_ERROR`;
`OTHER` stands for every remaining failure code (`SQLITE_BUSY`,
`SQLITE_MISUSE`, `SQLITE_IOERR`, ...). -/
inductive Status
  | SQLITE_DONE
  | SQLITE_ROW
  | SQLITE_CONSTRAINT
  | SQLITE_ERROR
  | OTHER
deriving DecidableEq, Repr

/-- A store failure: the code is `SQLITE_ERROR`, or one of the others. -/
inductive Fault
  | error
  | other
deriving DecidableEq, Repr

/-- The result code a fault shows to the caller. -/
def Fault.status : Fault → Status
  | Fault.error => Status.SQLITE_ERROR
  | Fault.other => Status.OTHER

/-- A failure of the store during one statement: the call of `sqlite3_step`
with index `step` (counted from 0) and every later call on that statement
return the code of `fault`. -/
structure FaultPlan where
  step : Nat
  fault : Fault
deriving DecidableEq, Repr

/-- The failure code of the step call with index `i`, if the plan makes that
call fail. -/
def failsAt (plan : Option FaultPlan) (i : Nat) : Option Status :=
  match plan with
  | none => none
  | some pl => if pl.step ≤ i then some pl.fault.status else none

/-- The value SQLite reads from the text `s` pasted between two quote
characters by the format `'%s'`: inside a literal a quote character is
written twice, so each doubled quote stands for one quote.  A quote that is
not doubled ends the literal early and the statement is no longer the one
of the format string: the result is none, and the statement is taken to be
rejected by `sqlite3_prepare_v2`. -/
def sqlText : List Char → Option (List Char)
  | [] => some []
  | [c] => if c = '\x27' then none else some [c]
  | c :: d :: ds =>
    if c = '\x27' then
      (if d = '\x27' then (sqlText ds).map (fun t => '\x27' :: t) else none)
    else (sqlText (d :: ds)).map (fun t => c :: t)

/-- Modelled from the spec: the schema of table `files` is not part of the
sources; following the data model, a row holds the texts file, hash and peer
and the integer size, and the triple (file, hash, peer) is unique, so that an
INSERT of a triple already present is refused with `SQLITE_CONSTRAINT`.
The statement is `INSERT INTO files VALUES('%s', '%s', '%ld', '%s')`,
prepared and stepped once.  A statement that is not prepared makes
`sqlite3_step` fail with `SQLITE_MISUSE`. -/
def sqlite_insert (cat : Catalog) (plan : Option FaultPlan)
    (filename filehash : List Char) (f_size : Int) (peeraddr : List Char) :
    Status × Catalog :=
  match sqlText filename, sqlText filehash, sqlText peeraddr with
  | some f, some h, some p =>
    match failsAt plan 0 with
    | some st => (st, cat)
    | none =>
      if cat.any (fun r => decide (r.file = f ∧ r.hash = h ∧ r.peer = p)) then
        (Status.SQLITE_CONSTRAINT, cat)
      else (Status.SQLITE_DONE, cat ++ [⟨f, h, f_size, p⟩])
  | _, _, _ => (Status.OTHER, cat)

/-- The statement
`DELETE FROM files WHERE file='%s' AND hash='%s' AND peer='%s'`, prepared and
stepped once. -/
def sqlite_delete (cat : Catalog) (plan : Option FaultPlan)
    (filename filehash peeraddr : List Char) : Status × Catalog :=
  match sqlText filename, sqlText filehash, sqlText peeraddr with
  | some f, some h, some p =>
    match failsAt plan 0 with
    | some st => (st, cat)
    | none =>
      (Status.SQLITE_DONE,
        cat.filter (fun r => ! decide (r.file = f ∧ r.hash = h ∧ r.peer = p)))
  | _, _, _ => (Status.OTHER, cat)

/-- The statement `DELETE FROM files WHERE peer='%s'`, prepared and stepped
once. -/
def sqlite_purge (cat : Catalog) (plan : Option FaultPlan)
    (peeraddr : List Char) : Status × Catalog :=
  match sqlText peeraddr with
  | some p =>
    match failsAt plan 0 with
    | some st => (st, cat)
    | none => (Status.SQLITE_DONE, cat.filter (fun r => ! decide (r.peer = p)))
  | none => (Status.OTHER, cat)

/-- Byte-wise order of two texts (the default collation of SQLite):
the first differing character decides, a proper initial part comes first. -/
def textLe : List Char → List Char → Bool
  | [], _ => true
  | _ :: _, [] => false
  | a :: as, b :: bs =>
    if a.toNat < b.toNat then true
    else if b.toNat < a.toNat then false
    else textLe as bs

/-- Order of result rows by their first column. -/
def keyLe (a b : List Char × Int) : Prop := textLe a.1 b.1 = true

instance keyLe_decidable : DecidableRel keyLe :=
  fun a b => inferInstanceAs (Decidable (textLe a.1 b.1 = true))

/-- The result rows of `SELECT DISTINCT file,size FROM files ORDER BY file
ASC`: the distinct pairs (file, size), ordered by file.  SQL leaves the
order of rows with equal file open; the model fixes one. -/
def select_files (cat : Catalog) : List (List Char × Int) :=
  ((cat.map (fun r => (r.file, r.size))).dedup).insertionSort keyLe

/-- The result rows of `SELECT peer,size FROM files WHERE file='%s' ORDER BY
peer ASC` for the file value `f`: one pair per row of that file, ordered by
peer.  SQL leaves the order of rows with equal peer open; the model keeps
the order of the table for them. -/
def select_peers (cat : Catalog) (f : List Char) : List (List Char × Int) :=
  ((cat.filter (fun r => decide (r.file = f))).map
    (fun r => (r.peer, r.size))).insertionSort keyLe

/-! ## p2p.c -/

/-- The text written by `sprintf` with the formats `"%s %d\n"` and
`"%s %ld\n"`: a text column, a blank, a decimal integer and a line feed. -/
def fmt_row (text : List Char) (n : Int) : List Char :=
  text ++ ' ' :: ((toString n).toList ++ ['\n'])

/-- How the loop that steps a SELECT statement ends: `done` when
`SQLITE_DONE` is reached, `error` when the loop is left on `SQLITE_ERROR`,
`hang` when it is never left. -/
inductive LoopEnd
  | done
  | error
  | hang
deriving DecidableEq, Repr

/-- The loop `while((status = sqlite3_step(stmt)) != SQLITE_DONE)` of LIST
and REQUEST, from the step call with index `i` on, over the result rows
still to come.  On `SQLITE_ERROR` the error line `errLine` is sent and the
loop is left.  Any other failure code takes the branch that prints a row and
steps again; as the failure persists the loop does not end (`hang`), and
what it prints from then on is not part of `out`.  Each row is sent as
`fmt_row` of its text and of `sqlite3_column_int` of its size. -/
def select_loop (errLine : List Char) (plan : Option FaultPlan) :
    Nat → List (List Char × Int) → List (List Char) × LoopEnd
  | i, [] =>
    match failsAt plan i with
    | some Status.SQLITE_ERROR => ([errLine], LoopEnd.error)
    | some _ => ([], LoopEnd.hang)
    | none => ([], LoopEnd.done)
  | i, r :: rows =>
    match failsAt plan i with
    | some Status.SQLITE_ERROR => ([errLine], LoopEnd.error)
    | some _ => ([], LoopEnd.hang)
    | none =>
      let rest := select_loop errLine plan (i + 1) rows
      (fmt_row r.1 (wrap32 r.2) :: rest.1, rest.2)

/-- Where control goes after one pass of the command loop: `ready` for the
next pass, `quit` when the line is QUIT (the loop condition fails), `fatal`
when the loop is left by `break` after a store failure, `hang` when the pass
never finishes. -/
inductive Control
  | ready
  | quit
  | fatal
  | hang
deriving DecidableEq, Repr

/-- Effect of one pass of the command loop. -/
structure Step where
  out : List (List Char)
  cat : Catalog
  ctl : Control
deriving DecidableEq, Repr

/-- One pass of the loop `while(strcmp(in, "QUIT") != 0)` of `p2p`: receive
and clean a message, then run the command it selects.  `peeraddr` is the
address of the session, `cat` the table before the pass, `plan` the store
failure (if any) met by the statement of this pass, `received` the bytes
delivered by `recv`. -/
def handle (peeraddr : List Char) (cat : Catalog) (plan : Option FaultPlan)
    (received : List Char) : Step :=
  let line := clean_string (recv_msg received).2
  if line.take 3 = "ADD".toList then
    let tok1 := strtok line
    let tok2 := strtok tok1.2
    let tok3 := strtok tok2.2
    let tok4 := strtok tok3.2
    match tok2.1 with
    | none => ⟨["ERROR A1\n".toList], cat, Control.ready⟩
    | some filename =>
      match tok3.1 with
      | none => ⟨["ERROR A2\n".toList], cat, Control.ready⟩
      | some filehash =>
        match tok4.1 with
        | none => ⟨["ERROR A3\n".toList], cat, Control.ready⟩
        | some filesize =>
          if validate_int filesize = 1 then
            let f_size := atoi filesize
            let res := sqlite_insert cat plan filename filehash f_size peeraddr
            match res.1 with
            | Status.SQLITE_DONE => ⟨["OK\n".toList], res.2, Control.ready⟩
            | Status.SQLITE_CONSTRAINT => ⟨["ERROR A4\n".toList], res.2, Control.ready⟩
            | _ => ⟨["ERROR A0\n".toList], res.2, Control.fatal⟩
          else ⟨["ERROR A3\n".toList], cat, Control.ready⟩
  else if line.take 6 = "DELETE".toList then
    let tok1 := strtok line
    let tok2 := strtok tok1.2
    let tok3 := strtok tok2.2
    match tok2.1 with
    | none => ⟨["ERROR D1\n".toList], cat, Control.ready⟩
    | some filename =>
      match tok3.1 with
      | none => ⟨["ERROR D2\n".toList], cat, Control.ready⟩
      | some filehash =>
        let res := sqlite_delete cat plan filename filehash peeraddr
        match res.1 with
        | Status.SQLITE_DONE => ⟨["OK\n".toList], res.2, Control.ready⟩
        | _ => ⟨["ERROR D0\n".toList], res.2, Control.fatal⟩
  else if line = "LIST".toList then
    let res := select_loop "ERROR L0\n".toList plan 0 (select_files cat)
    match res.2 with
    | LoopEnd.done => ⟨res.1 ++ ["OK\n".toList], cat, Control.ready⟩
    | LoopEnd.error => ⟨res.1, cat, Control.fatal⟩
    | LoopEnd.hang => ⟨res.1, cat, Control.hang⟩
  else if line = "QUIT".toList then
    ⟨[], cat, Control.quit⟩
  else if line.take 7 = "REQUEST".toList then
    let tok1 := strtok line
    let tok2 := strtok tok1.2
    match tok2.1 with
    | none => ⟨["ERROR R1\n".toList], cat, Control.ready⟩
    | some filename =>
      match sqlText filename with
      | none => ⟨[], cat, Control.hang⟩
      | some f =>
        let res := select_loop "ERROR R0\n".toList plan 0 (select_peers cat f)
        match res.2 with
        | LoopEnd.done => ⟨res.1 ++ ["OK\n".toList], cat, Control.ready⟩
        | LoopEnd.error => ⟨res.1, cat, Control.fatal⟩
        | LoopEnd.hang => ⟨res.1, cat, Control.hang⟩
  else ⟨["ERROR C0\n".toList], cat, Control.ready⟩

/-- One call of `recv` by a session, seen from outside: the bytes delivered
and the store failure (if any) met by the statement of that pass. -/
structure Event where
  received : List Char
  plan : Option FaultPlan
deriving DecidableEq, Repr

/-- The first line of output: `sprintf` of `"%s: %s Justin Hill, Gordon
Keesler, and Matt Layher\n"` with `SERVER_NAME` and `USER_MSG`. -/
def banner : List Char :=
  "p2pd: >> Justin Hill, Gordon Keesler, and Matt Layher\n".toList

/-- Result of the handshake loop: the texts sent, the content of the buffer
`in` when the loop is left (none while the loop still waits in `recv` at the
end of the script), and the events not consumed. -/
structure Handshake where
  out : List (List Char)
  line : Option (List Char)
  rest : List Event
deriving DecidableEq, Repr

/-- The loop `while(strcmp(in, "CONNECT") != 0 && strcmp(in, "QUIT") != 0)`
of `p2p`, entered with the buffer content `line`: each pass receives and
cleans a message and answers HELLO when it is CONNECT. -/
def handshake : List Char → List Event → Handshake
  | line, [] =>
    if line = "CONNECT".toList ∨ line = "QUIT".toList then ⟨[], some line, []⟩
    else ⟨[], none, []⟩
  | line, e :: events =>
    if line = "CONNECT".toList ∨ line = "QUIT".toList then
      ⟨[], some line, e :: events⟩
    else
      let line1 := clean_string (recv_msg e.received).2
      let r := handshake line1 events
      ⟨(if line1 = "CONNECT".toList then ["HELLO\n".toList] else []) ++ r.out,
        r.line, r.rest⟩

/-- How the command loop is left: by QUIT, by `break` after a store failure,
never (`hang`), or not yet (`waiting`: the session is blocked in `recv` at
the end of the script). -/
inductive Exit
  | quit
  | fatal
  | hang
  | waiting
deriving DecidableEq, Repr

/-- The texts sent by a loop, the table it leaves and how it is left. -/
structure Loop where
  out : List (List Char)
  cat : Catalog
  exit : Exit
deriving DecidableEq, Repr

/-- The loop `while(strcmp(in, "QUIT") != 0)` of `p2p` over a script of
events, one pass per event. -/
def command_loop (peeraddr : List Char) : Catalog → List Event → Loop
  | cat, [] => ⟨[], cat, Exit.waiting⟩
  | cat, e :: events =>
    let s := handle peeraddr cat e.plan e.received
    match s.ctl with
    | Control.ready =>
      let r := command_loop peeraddr s.cat events
      ⟨s.out ++ r.out, r.cat, r.exit⟩
    | Control.quit => ⟨s.out, s.cat, Exit.quit⟩
    | Control.fatal => ⟨s.out, s.cat, Exit.fatal⟩
    | Control.hang => ⟨s.out, s.cat, Exit.hang⟩

/-- The function `p2p` up to the disconnect routines: banner, handshake loop
and command loop.  `in0` is the content of the buffer `in` at entry (the
program does not initialise it). -/
def session_loops (peeraddr in0 : List Char) (cat : Catalog)
    (events : List Event) : Loop :=
  let hs := handshake in0 events
  match hs.line with
  | none => ⟨banner :: hs.out, cat, Exit.waiting⟩
  | some line =>
    if line = "QUIT".toList then ⟨banner :: hs.out, cat, Exit.quit⟩
    else
      let lp := command_loop peeraddr cat hs.rest
      ⟨banner :: (hs.out ++ lp.out), lp.cat, lp.exit⟩

/-- State of a session and of the server when `p2p` is over or stuck: the
texts sent, table `files`, the client counter, whether `close` closed the
socket, and the value returned by the thread (none when it has not
returned). -/
structure Outcome where
  out : List (List Char)
  cat : Catalog
  c_count : Int
  closed : Bool
  ret : Option Int
deriving DecidableEq, Repr

/-- The disconnect routines of `p2p`: send GOODBYE, decrement the client
counter, purge the rows of the peer, close the socket.  `plan` is the store
failure (if any) met by the purge, `close_rc` the value returned by
`close`.  When the purge does not end with `SQLITE_DONE` the function returns
-1 before `close` is called. -/
def disconnect (peeraddr : List Char) (cat : Catalog) (c_count : Int)
    (plan : Option FaultPlan) (close_rc : Int) : Outcome :=
  let out := ["GOODBYE\n".toList]
  let count := (client_count c_count (-1)).1
  let res := sqlite_purge cat plan peeraddr
  if res.1 ≠ Status.SQLITE_DONE then ⟨out, res.2, count, false, some (-1)⟩
  else if close_rc = -1 then ⟨out, res.2, count, false, some (-1)⟩
  else ⟨out, res.2, count, true, some 0⟩

/-- What a session receives from its environment: the content of the
buffer `in` at entry, the script of reads, the store failure met by the
purge, and the value returned by `close`. -/
structure Env where
  in0 : List Char
  events : List Event
  purge : Option FaultPlan
  close_rc : Int
deriving DecidableEq, Repr

/-- The function `p2p` for the session of address `peeraddr`, started with
client counter `c_count` and table `cat`. -/
def p2p (peeraddr : List Char) (c_count : Int) (cat : Catalog) (env : Env) :
    Outcome :=
  let lp := session_loops peeraddr env.in0 cat env.events
  match lp.exit with
  | Exit.quit =>
    let d := disconnect peeraddr lp.cat c_count env.purge env.close_rc
    ⟨lp.out ++ d.out, d.cat, d.c_count, d.closed, d.ret⟩
  | Exit.fatal =>
    let d := disconnect peeraddr lp.cat c_count env.purge env.close_rc
    ⟨lp.out ++ d.out, d.cat, d.c_count, d.closed, d.ret⟩
  | Exit.hang => ⟨lp.out, lp.cat, c_count, false, none⟩
  | Exit.waiting => ⟨lp.out, lp.cat, c_count, false, none⟩

/-- One pass of the command loop of some session in READY state, as the
shared store sees it: the address of the session and its event. -/
structure Request where
  peer : List Char
  received : List Char
  plan : Option FaultPlan
deriving DecidableEq, Repr

/-- The table after the passes of several READY sessions, in the order in
which the store runs their statements. -/
def serve : Catalog → List Request → Catalog
  | cat, [] => cat
  | cat, r :: rs => serve (handle r.peer cat r.plan r.received).cat rs

/-! ## Vocabulary of the statements -/

/-- The key of a row: its triple (file, hash, peer). -/
def Row.key (r : Row) : List Char × List Char × List Char :=
  (r.file, r.hash, r.peer)

/-- The blank-separated tokens of a line: its maximal runs of characters
other than the blank. -/
def tokens (line : List Char) : List (List Char) :=
  (line.splitOn ' ').filter (fun t => decide (t ≠ []))

/-- A text that arrives as one token of a cleaned line: it is not empty and
has no blank, NUL, backspace, line feed or carriage return. -/
def isToken (t : List Char) : Bool :=
  decide (t ≠ []) &&
    t.all (fun c => c != ' ' && c != '\x00' && c != '\x08' && c != '\n' && c != '\r')

/-- A text without the quote character of SQL literals. -/
def noQuote (t : List Char) : Bool := t.all (fun c => c != '\x27')

/-- A text made of decimal digits only, and of at least one. -/
def isDigits (t : List Char) : Bool := decide (t ≠ []) && t.all isdigit

/-- The line `ADD f h s`. -/
def addLine (f h s : List Char) : List Char :=
  "ADD".toList ++ ' ' :: (f ++ ' ' :: (h ++ ' ' :: s))

/-- The line `DELETE f h`. -/
def deleteLine (f h : List Char) : List Char :=
  "DELETE".toList ++ ' ' :: (f ++ ' ' :: h)

/-- The line `REQUEST f`. -/
def requestLine (f : List Char) : List Char :=
  "REQUEST".toList ++ ' ' :: f

/-- An ADD or DELETE command of some peer, as the uniqueness property of the
specification speaks of it. -/
inductive Op
  | add (file hash size peer : List Char)
  | delete (file hash peer : List Char)
deriving DecidableEq, Repr

/-- The pass of the command loop that an operation causes: its line, sent by
its peer, with the store working. -/
def Op.request : Op → Request
  | Op.add f h s p => ⟨p, addLine f h s, none⟩
  | Op.delete f h p => ⟨p, deleteLine f h, none⟩

/-- An operation whose tokens are well formed and hold no quote character,
sent from an address without quote character. -/
def Op.plain : Op → Bool
  | Op.add f h s p =>
    isToken f && isToken h && isDigits s && noQuote f && noQuote h && noQuote p
  | Op.delete f h p => isToken f && isToken h && noQuote f && noQuote h && noQuote p

/-- The replay of the uniqueness property, in the words of the
specification: the set of triples, where an ADD of a triple already present
adds nothing and a DELETE removes the triple. -/
def replay : List (List Char × List Char × List Char) → List Op →
    List (List Char × List Char × List Char)
  | set, [] => set
  | set, Op.add f h _ p :: ops =>
    if (f, h, p) ∈ set then replay set ops else replay (set ++ [(f, h, p)]) ops
  | set, Op.delete f h p :: ops =>
    replay (set.filter (fun t => decide (t ≠ (f, h, p)))) ops

/-- The error replies that end no session: missing or invalid arguments and
the duplicate entry. -/
def validationErrors : List (List Char) :=
  ["ERROR A1\n".toList, "ERROR A2\n".toList, "ERROR A3\n".toList, "ERROR A4\n".toList,
   "ERROR D1\n".toList, "ERROR D2\n".toList, "ERROR R1\n".toList]

/-- The error replies sent on a store failure, after which the command loop
is left. -/
def fatalErrors : List (List Char) :=
  ["ERROR A0\n".toList, "ERROR D0\n".toList, "ERROR L0\n".toList, "ERROR R0\n".toList]

/-- The terminator lines of the protocol: `OK` and the twelve `ERROR`
lines of the error code table. -/
def terminators : List (List Char) :=
  "OK\n".toList :: "ERROR C0\n".toList :: (validationErrors ++ fatalErrors)

/-- A data line of LIST or REQUEST: a text, a blank, a decimal integer and a
line feed. -/
def isDataLine (l : List Char) : Prop := ∃ (text : List Char) (n : Int), l = fmt_row text n

/-- The last blank-separated field of a line without its final character. -/
def lastField (l : List Char) : List Char :=
  ((l.dropLast.reverse).takeWhile (fun c => c != ' ')).reverse

/-! ## main.c: the listener -/

/-- Number of binary digits of `p`, by halving; `fuel` bounds the number of
halvings. -/
def bitLengthAux : Nat → Nat → Nat
  | 0, _ => 0
  | fuel + 1, p => if p = 0 then 0 else bitLengthAux fuel (p / 2) + 1

/-- Number of binary digits of `p` (0 for 0). -/
def bitLength (p : Nat) : Nat := bitLengthAux p p

/-- The integer nearest to `p / 2 ^ s`, the even one of the two when `p` is
half way: the rounding of binary64 arithmetic (round to nearest, ties to
even) applied to a significand with `s` digits too many. -/
def roundShift (p s : Nat) : Nat :=
  if 2 * (p % 2 ^ s) < 2 ^ s then p / 2 ^ s
  else if 2 ^ s < 2 * (p % 2 ^ s) then p / 2 ^ s + 1
  else if (p / 2 ^ s) % 2 = 0 then p / 2 ^ s else p / 2 ^ s + 1

/-- The macro `TP_UTIL`, the literal 0.80 of type double: the binary64
number nearest to 4/5 is 3602879701896397 / 2^52; this is its numerator. -/
def TP_UTIL : Nat := 3602879701896397

/-- The binary64 product `(double)num_threads * TP_UTIL` for a count
`num_threads` that is not negative, as the numerator of a fraction with
denominator 2^52.  The exact product is `num_threads * TP_UTIL / 2^52`; a
double keeps 53 binary digits of the numerator, the others are rounded
away (the product is taken to be rounded to binary64, without excess
precision). -/
def mul_TP_UTIL (num_threads : Nat) : Nat :=
  roundShift (num_threads * TP_UTIL) (bitLength (num_threads * TP_UTIL) - 53) *
    2 ^ (bitLength (num_threads * TP_UTIL) - 53)

/-- The test `(double)client_count(0) >= ((double)num_threads * TP_UTIL)`
of `tcp_listen` for the count `n` and `num_threads` threads, both of type
`int` (their conversions to double are exact; the product of a negative
count is the opposite of the product of its absolute value). -/
def reaches_TP_UTIL (n num_threads : Int) : Bool :=
  decide (num_threads.sign * (mul_TP_UTIL num_threads.natAbs : Int) ≤ n * 2 ^ 52)

/-- A connection returned by `accept`: its descriptor and the printed
address of the peer. -/
structure Conn where
  fd : Int
  addr : List Char
deriving DecidableEq, Repr

/-- The lines `tcp_listen` prints on the console, without their colours:
`client connected from <addr> [fd: ..] [users: n/threads]`,
`thread pool nearing exhaustion [users: n/threads]`,
`thread pool exhausted [users: n/threads]`,
`thread pool over-exhausted [users: n/threads]` and
`failed to accept incoming connections`. -/
inductive Notice
  | connected (addr : List Char) (fd users threads : Int)
  | nearing (users threads : Int)
  | exhausted (users threads : Int)
  | overExhausted (users threads : Int)
  | acceptFailed
deriving DecidableEq, Repr

/-- The line sent to a peer accepted over capacity: `sprintf` of
`"%s: %s server has currently reached maximum user capacity, please wait\n"`
with `SERVER_NAME` and `USER_MSG`. -/
def waitLine : List Char :=
  "p2pd: >> server has currently reached maximum user capacity, please wait\n".toList

/-- What `tcp_listen` has done: the console lines, the texts sent with the
descriptor they were sent to, the client counter, the jobs given to the
thread pool by `thpool_add_work` (the `p2p_t` arguments of `p2p`), and the
value returned (none while the loop is blocked in `accept`). -/
structure Listener where
  log : List Notice
  sent : List (Int × List Char)
  c_count : Int
  pool : List Conn
  ret : Option Int
deriving DecidableEq, Repr

/-- The else branch of one pass of the loop of `tcp_listen`, for an accepted
connection, entered with the client counter `c_count`: count the client,
print the warnings, hand the connection to the pool.  The pass reads the
counter several times; it is taken not to change between these reads. -/
def accept_one (num_threads c_count : Int) (conn : Conn) : Listener :=
  let count := (client_count c_count 1).1
  let first := Notice.connected conn.addr conn.fd count num_threads
  if reaches_TP_UTIL count num_threads = true ∧ count ≤ num_threads then
    if count = num_threads then
      ⟨[first, Notice.exhausted count num_threads], [], count, [conn], none⟩
    else ⟨[first, Notice.nearing count num_threads], [], count, [conn], none⟩
  else if count > num_threads then
    ⟨[first, Notice.overExhausted count num_threads], [(conn.fd, waitLine)], count,
      [conn], none⟩
  else ⟨[first], [], count, [conn], none⟩

/-- The function `tcp_listen` over a script of results of `accept`, none
standing for the result -1: the loop `while(1)` serves one result per pass
and returns -1 at the first failed `accept`. -/
def tcp_listen (num_threads : Int) : Int → List (Option Conn) → Listener
  | c_count, [] => ⟨[], [], c_count, [], none⟩
  | c_count, none :: _ => ⟨[Notice.acceptFailed], [], c_count, [], some (-1)⟩
  | c_count, some conn :: script =>
    let a := accept_one num_threads c_count conn
    let r := tcp_listen num_threads a.c_count script
    ⟨a.log ++ r.log, a.sent ++ r.sent, r.c_count, a.pool ++ r.pool, r.ret⟩

/-! ## main.c: the command line -/

/-- The macro `DEFAULT_PORT`. -/
def DEFAULT_PORT : List Char := "6600".toList

/-- The macro `LOCKFILE`, `"/tmp/" SERVER_NAME ".lock"`. -/
def LOCKFILE : List Char := "/tmp/p2pd.lock".toList

/-- The macro `NUM_THREADS`. -/
def NUM_THREADS : Int := 64

/-- The macro `QUEUE_LENGTH`. -/
def QUEUE_LENGTH : Int := 32

/-- The macro `MAX_PORT`. -/
def MAX_PORT : Int := 65535

/-- The global variables of `main.c` that the argument loop of `main`
assigns. -/
structure Config where
  daemonized : Int
  lock_location : List Char
  port : List Char
  queue_length : Int
  num_threads : Int
deriving DecidableEq, Repr

/-- The initial values of these variables. -/
def defaults : Config := ⟨0, LOCKFILE, DEFAULT_PORT, QUEUE_LENGTH, NUM_THREADS⟩

/-- The messages of the argument loop of `main`: the usage text of the help
flag, and the errors printed on stderr
`no lockfile location specified, defaulting to ..`,
`port lies outside valid range (0-65535), defaulting to 6600`,
`invalid port number specified, defaulting to 6600`,
`no port number specified after flag, defaulting to 6600`,
`cannot use negative or zero queue length, defaulting to length 32`,
`invalid queue length specified, defaulting to length 32`,
`no queue length specified after flag, default to length 32`,
`cannot use negative or zero threads, defaulting to 64 threads`,
`invalid number of threads specified, defaulting to 64 threads`,
`no thread count specified after flag, defaulting to 64 threads` and
`unknown parameter .. specified, please run p2pd -h for help and usage`. -/
inductive ArgMessage
  | usage
  | lockMissing
  | portRange
  | portInvalid
  | portMissing
  | queueRange
  | queueInvalid
  | queueMissing
  | threadsRange
  | threadsInvalid
  | threadsMissing
  | unknownParameter (arg : List Char)
deriving DecidableEq, Repr

/-- Where the argument loop of `main` leaves the program: the variables, the
messages printed, and the argument of `exit` when the loop ended the process
(none when the loop is over and `main` goes on to open the database). -/
structure Startup where
  cfg : Config
  log : List ArgMessage
  exit : Option Int
deriving DecidableEq, Repr

/-- The startup `r` after the message `m` has been printed. -/
def Startup.after (m : ArgMessage) (r : Startup) : Startup :=
  ⟨r.cfg, m :: r.log, r.exit⟩

/-- The loop `for(i = 1; i < argc; i++)` of `main` over the arguments
`argv[i]`, .., `argv[argc-1]`, entered with the variables `cfg`.  A flag
that takes a value looks at `argv[i+1]`, which is NULL after the last
argument; only the branches that accept the value step over it with `i++`,
so in the other branches the next pass of the loop reads the value as an
argument of its own. -/
def parse_arguments : Config → List (List Char) → Startup
  | cfg, [] => ⟨cfg, [], none⟩
  | cfg, [a] =>
    if a = "-d".toList ∨ a = "--daemon".toList then
      ⟨⟨1, cfg.lock_location, cfg.port, cfg.queue_length, cfg.num_threads⟩, [], none⟩
    else if a = "-h".toList ∨ a = "--help".toList then ⟨cfg, [ArgMessage.usage], some 0⟩
    else if a = "-l".toList ∨ a = "--lock".toList then
      ⟨cfg, [ArgMessage.lockMissing], none⟩
    else if a = "-p".toList ∨ a = "--port".toList then
      ⟨cfg, [ArgMessage.portMissing], none⟩
    else if a = "-q".toList ∨ a = "--queue".toList then
      ⟨cfg, [ArgMessage.queueMissing], none⟩
    else if a = "-t".toList ∨ a = "--threads".toList then
      ⟨cfg, [ArgMessage.threadsMissing], none⟩
    else ⟨cfg, [ArgMessage.unknownParameter a], some (-1)⟩
  | cfg, a :: v :: rest =>
    if a = "-d".toList ∨ a = "--daemon".toList then
      parse_arguments
        ⟨1, cfg.lock_location, cfg.port, cfg.queue_length, cfg.num_threads⟩ (v :: rest)
    else if a = "-h".toList ∨ a = "--help".toList then ⟨cfg, [ArgMessage.usage], some 0⟩
    else if a = "-l".toList ∨ a = "--lock".toList then
      parse_arguments ⟨cfg.daemonized, v, cfg.port, cfg.queue_length, cfg.num_threads⟩ rest
    else if a = "-p".toList ∨ a = "--port".toList then
      if validate_int v ≠ 0 then
        if atoi v ≥ 0 ∧ atoi v ≤ MAX_PORT then
          parse_arguments
            ⟨cfg.daemonized, cfg.lock_location, v, cfg.queue_length, cfg.num_threads⟩ rest
        else (parse_arguments cfg (v :: rest)).after ArgMessage.portRange
      else (parse_arguments cfg (v :: rest)).after ArgMessage.portInvalid
    else if a = "-q".toList ∨ a = "--queue".toList then
      if validate_int v ≠ 0 then
        if atoi v ≥ 1 then
          parse_arguments
            ⟨cfg.daemonized, cfg.lock_location, cfg.port, atoi v, cfg.num_threads⟩ rest
        else (parse_arguments cfg (v :: rest)).after ArgMessage.queueRange
      else (parse_arguments cfg (v :: rest)).after ArgMessage.queueInvalid
    else if a = "-t".toList ∨ a = "--threads".toList then
      if validate_int v ≠ 0 then
        if atoi v ≥ 1 then
          parse_arguments
            ⟨cfg.daemonized, cfg.lock_location, cfg.port, cfg.queue_length, atoi v⟩ rest
        else (parse_arguments cfg (v :: rest)).after ArgMessage.threadsRange
      else (parse_arguments cfg (v :: rest)).after ArgMessage.threadsInvalid
    else ⟨cfg, [ArgMessage.unknownParameter a], some (-1)⟩

/-- The arguments that the loop of `main` compares `argv[i]` with. -/
def flags : List (List Char) :=
  ["-d".toList, "--daemon".toList, "-h".toList, "--help".toList, "-l".toList,
   "--lock".toList, "-p".toList, "--port".toList, "-q".toList, "--queue".toList,
   "-t".toList, "--threads".toList]

/-! ## Lemmas on the helpers -/

theorem clean_string_eq_filter (s : List Char) :
    clean_string s = s.filter (fun c => c != '\x08' && c != '\n' && c != '\r') := by
  induction s with
  | nil => rfl
  | cons c cs ih =>
    by_cases h : c ≠ '\x08' ∧ c ≠ '\n' ∧ c ≠ '\r'
    · have hb : (c != '\x08' && c != '\n' && c != '\r') = true := by
        simp [h.1, h.2.1, h.2.2]
      simp only [clean_string, if_pos h, List.filter_cons, hb, ih, if_true]
    · have hb : (c != '\x08' && c != '\n' && c != '\r') = false := by
        by_contra hne
        simp only [Bool.not_eq_false, Bool.and_eq_true, bne_iff_ne] at hne
        exact h ⟨hne.1.1, hne.1.2, hne.2⟩
      simp [clean_string, if_neg h, List.filter_cons, hb, ih]

theorem isToken_ne_nil {t : List Char} (h : isToken t = true) : t ≠ [] := by
  simp only [isToken, Bool.and_eq_true, decide_eq_true_eq] at h
  exact h.1

theorem isToken_mem {t : List Char} (h : isToken t = true) {c : Char} (hc : c ∈ t) :
    c ≠ ' ' ∧ c ≠ '\x00' ∧ c ≠ '\x08' ∧ c ≠ '\n' ∧ c ≠ '\r' := by
  simp only [isToken, Bool.and_eq_true, decide_eq_true_eq, List.all_eq_true,
    bne_iff_ne] at h
  obtain ⟨⟨⟨⟨h1, h2⟩, h3⟩, h4⟩, h5⟩ := h.2 c hc
  exact ⟨h1, h2, h3, h4, h5⟩

theorem isDigits_isToken {s : List Char} (h : isDigits s = true) : isToken s = true := by
  simp only [isDigits, Bool.and_eq_true, decide_eq_true_eq, List.all_eq_true] at h
  simp only [isToken, Bool.and_eq_true, decide_eq_true_eq, List.all_eq_true, bne_iff_ne]
  refine ⟨h.1, fun c hc => ?_⟩
  have hd := h.2 c hc
  simp only [isdigit, Bool.and_eq_true, decide_eq_true_eq] at hd
  refine ⟨⟨⟨⟨?_, ?_⟩, ?_⟩, ?_⟩, ?_⟩ <;> (intro hEq; subst hEq; revert hd; decide)

theorem takeWhile_eq_self {p : Char → Bool} {s : List Char} (h : ∀ c ∈ s, p c = true) :
    s.takeWhile p = s := by
  induction s with
  | nil => rfl
  | cons c cs ih =>
    have hc := h c (List.mem_cons_self c cs)
    simp only [List.takeWhile_cons, hc, if_true]
    rw [ih (fun d hd => h d (List.mem_cons_of_mem c hd))]

theorem recv_clean_of_clean {s : List Char}
    (h : ∀ c ∈ s, c ≠ '\x00' ∧ c ≠ '\x08' ∧ c ≠ '\n' ∧ c ≠ '\r') :
    clean_string (recv_msg s).2 = s := by
  have h1 : (recv_msg s).2 = s := by
    simp only [recv_msg]
    exact takeWhile_eq_self (fun c hc => by simp [(h c hc).1])
  rw [h1, clean_string_eq_filter]
  exact List.filter_eq_self.mpr (fun c hc => by
    simp [(h c hc).2.1, (h c hc).2.2.1, (h c hc).2.2.2])

/-! ## Tokens and `strtok` -/

theorem tokens_nil : tokens [] = [] := by
  simp [tokens, List.splitOn]

theorem tokens_unfold (s : List Char) :
    tokens s =
      (if s.takeWhile (fun c => c != ' ') = [] then []
        else [s.takeWhile (fun c => c != ' ')]) ++
      tokens ((s.dropWhile (fun c => c != ' ')).drop 1) := by
  have key : ∀ s : List Char, s.splitOnP (fun c => c == ' ') =
      s.takeWhile (fun c => c != ' ') ::
        (match s.dropWhile (fun c => c != ' ') with
          | [] => []
          | _ :: r => r.splitOnP (fun c => c == ' ')) := by
    intro s
    induction s with
    | nil => simp
    | cons c cs ih =>
      by_cases hc : c = ' '
      · subst hc
        simp
      · have h1 : (c == ' ') = false := by simpa using hc
        have h2 : (c != ' ') = true := by simpa using hc
        rw [List.splitOnP_cons, h1, ih]
        simp [List.takeWhile_cons, List.dropWhile_cons, h2, List.modifyHead]
  unfold tokens List.splitOn
  rw [key s]
  cases hd : s.dropWhile (fun c => c != ' ') with
  | nil =>
    by_cases ht : s.takeWhile (fun c => c != ' ') = [] <;>
      simp [ht, List.filter_cons]
  | cons d r =>
    by_cases ht : s.takeWhile (fun c => c != ' ') = [] <;>
      simp [ht, List.filter_cons]

theorem tokens_blank_cons (s : List Char) : tokens (' ' :: s) = tokens s := by
  rw [tokens_unfold (' ' :: s)]
  simp

theorem tokens_dropWhile_blank (s : List Char) :
    tokens (s.dropWhile (fun c => c == ' ')) = tokens s := by
  induction s with
  | nil => rfl
  | cons c cs ih =>
    by_cases hc : c = ' '
    · subst hc
      rw [tokens_blank_cons]
      simpa [List.dropWhile_cons] using ih
    · have h1 : (c == ' ') = false := by simpa using hc
      simp [List.dropWhile_cons, h1]

theorem dropWhile_blank_head {s : List Char} {c : Char} {r : List Char}
    (h : s.dropWhile (fun c => c == ' ') = c :: r) : c ≠ ' ' := by
  induction s with
  | nil => simp at h
  | cons d ds ih =>
    by_cases hd : d = ' '
    · subst hd
      exact ih (by simpa [List.dropWhile_cons] using h)
    · have h1 : (d == ' ') = false := by simpa using hd
      simp only [List.dropWhile_cons, h1] at h
      simp only [Bool.false_eq_true, if_false, List.cons.injEq] at h
      exact h.1 ▸ hd

/-- The token returned by `strtok` is the first token of the text, and the
tokens after the saved position are the remaining ones. -/
theorem strtok_tokens (s : List Char) :
    (strtok s).1 = (tokens s).head? ∧ tokens (strtok s).2 = (tokens s).tail := by
  rw [← tokens_dropWhile_blank s]
  simp only [strtok]
  cases hs : s.dropWhile (fun c => c == ' ') with
  | nil => simp [tokens_nil]
  | cons c r =>
    have hc : c ≠ ' ' := dropWhile_blank_head hs
    have h2 : (c != ' ') = true := by simpa using hc
    rw [tokens_unfold (c :: r)]
    simp [List.takeWhile_cons, h2]

theorem tokens_token_cons {t : List Char} (ht : isToken t = true) (s : List Char) :
    tokens (t ++ ' ' :: s) = t :: tokens s := by
  unfold tokens List.splitOn
  rw [List.splitOnP_first (fun c => c == ' ') t
    (fun c hc => by simpa using (isToken_mem ht hc).1) ' ' (by simp) s]
  simp [List.filter_cons, isToken_ne_nil ht]

theorem tokens_token {t : List Char} (ht : isToken t = true) : tokens t = [t] := by
  unfold tokens List.splitOn
  rw [List.splitOnP_eq_single (fun c => c == ' ') t
    (fun c hc => by simpa using (isToken_mem ht hc).1)]
  simp [List.filter_cons, isToken_ne_nil ht]

/-! ## The commands in terms of the tokens of the line -/

/-- An ADD line is handled according to the tokens after the verb. -/
theorem handle_add (peeraddr : List Char) (cat : Catalog) (plan : Option FaultPlan)
    (received : List Char)
    (hv : (clean_string (recv_msg received).2).take 3 = "ADD".toList) :
    handle peeraddr cat plan received =
      match (tokens (clean_string (recv_msg received).2)).tail with
      | [] => ⟨["ERROR A1\n".toList], cat, Control.ready⟩
      | [_] => ⟨["ERROR A2\n".toList], cat, Control.ready⟩
      | [_, _] => ⟨["ERROR A3\n".toList], cat, Control.ready⟩
      | filename :: filehash :: filesize :: _ =>
        if validate_int filesize = 1 then
          match (sqlite_insert cat plan filename filehash (atoi filesize) peeraddr).1 with
          | Status.SQLITE_DONE =>
            ⟨["OK\n".toList],
              (sqlite_insert cat plan filename filehash (atoi filesize) peeraddr).2,
              Control.ready⟩
          | Status.SQLITE_CONSTRAINT =>
            ⟨["ERROR A4\n".toList],
              (sqlite_insert cat plan filename filehash (atoi filesize) peeraddr).2,
              Control.ready⟩
          | _ =>
            ⟨["ERROR A0\n".toList],
              (sqlite_insert cat plan filename filehash (atoi filesize) peeraddr).2,
              Control.fatal⟩
        else ⟨["ERROR A3\n".toList], cat, Control.ready⟩ := by
  have e1 := strtok_tokens (clean_string (recv_msg received).2)
  have e2 := strtok_tokens (strtok (clean_string (recv_msg received).2)).2
  have e3 := strtok_tokens (strtok (strtok (clean_string (recv_msg received).2)).2).2
  have e4 := strtok_tokens
    (strtok (strtok (strtok (clean_string (recv_msg received).2)).2).2).2
  rw [e1.2] at e2
  rw [e2.2] at e3
  rw [e3.2] at e4
  simp only [handle, hv, if_true]
  rw [e2.1, e3.1, e4.1]
  rcases (tokens (clean_string (recv_msg received).2)).tail with
    _ | ⟨f, _ | ⟨h, _ | ⟨s, r⟩⟩⟩ <;> simp

/-- A DELETE line is handled according to the tokens after the verb. -/
theorem handle_delete (peeraddr : List Char) (cat : Catalog) (plan : Option FaultPlan)
    (received : List Char)
    (hv : (clean_string (recv_msg received).2).take 6 = "DELETE".toList) :
    handle peeraddr cat plan received =
      match (tokens (clean_string (recv_msg received).2)).tail with
      | [] => ⟨["ERROR D1\n".toList], cat, Control.ready⟩
      | [_] => ⟨["ERROR D2\n".toList], cat, Control.ready⟩
      | filename :: filehash :: _ =>
        match (sqlite_delete cat plan filename filehash peeraddr).1 with
        | Status.SQLITE_DONE =>
          ⟨["OK\n".toList], (sqlite_delete cat plan filename filehash peeraddr).2,
            Control.ready⟩
        | _ =>
          ⟨["ERROR D0\n".toList], (sqlite_delete cat plan filename filehash peeraddr).2,
            Control.fatal⟩ := by
  have e1 := strtok_tokens (clean_string (recv_msg received).2)
  have e2 := strtok_tokens (strtok (clean_string (recv_msg received).2)).2
  have e3 := strtok_tokens (strtok (strtok (clean_string (recv_msg received).2)).2).2
  rw [e1.2] at e2
  rw [e2.2] at e3
  have hnot : ¬ (clean_string (recv_msg received).2).take 3 = "ADD".toList := by
    intro h3
    have := congrArg (List.take 3) hv
    rw [List.take_take] at this
    simp only [Nat.min_def] at this
    rw [if_pos (by decide)] at this
    rw [h3] at this
    revert this
    decide
  simp only [handle, hv, hnot, if_true, if_false]
  rw [e2.1, e3.1]
  rcases (tokens (clean_string (recv_msg received).2)).tail with
    _ | ⟨f, _ | ⟨h, r⟩⟩ <;> simp

/-- A REQUEST line is handled according to the token after the verb. -/
theorem handle_request (peeraddr : List Char) (cat : Catalog) (plan : Option FaultPlan)
    (received : List Char)
    (hv : (clean_string (recv_msg received).2).take 7 = "REQUEST".toList) :
    handle peeraddr cat plan received =
      match (tokens (clean_string (recv_msg received).2)).tail with
      | [] => ⟨["ERROR R1\n".toList], cat, Control.ready⟩
      | filename :: _ =>
        match sqlText filename with
        | none => ⟨[], cat, Control.hang⟩
        | some f =>
          match (select_loop "ERROR R0\n".toList plan 0 (select_peers cat f)).2 with
          | LoopEnd.done =>
            ⟨(select_loop "ERROR R0\n".toList plan 0 (select_peers cat f)).1 ++
              ["OK\n".toList], cat, Control.ready⟩
          | LoopEnd.error =>
            ⟨(select_loop "ERROR R0\n".toList plan 0 (select_peers cat f)).1, cat,
              Control.fatal⟩
          | LoopEnd.hang =>
            ⟨(select_loop "ERROR R0\n".toList plan 0 (select_peers cat f)).1, cat,
              Control.hang⟩ := by
  have e1 := strtok_tokens (clean_string (recv_msg received).2)
  have e2 := strtok_tokens (strtok (clean_string (recv_msg received).2)).2
  rw [e1.2] at e2
  have hadd : ¬ (clean_string (recv_msg received).2).take 3 = "ADD".toList := by
    intro h3
    have := congrArg (List.take 3) hv
    rw [List.take_take] at this
    simp only [Nat.min_def] at this
    rw [if_pos (by decide)] at this
    rw [h3] at this
    revert this
    decide
  have hdel : ¬ (clean_string (recv_msg received).2).take 6 = "DELETE".toList := by
    intro h6
    have := congrArg (List.take 6) hv
    rw [List.take_take] at this
    simp only [Nat.min_def] at this
    rw [if_pos (by decide)] at this
    rw [h6] at this
    revert this
    decide
  have hlist : ¬ clean_string (recv_msg received).2 = "LIST".toList := by
    intro h
    rw [h] at hv
    revert hv
    decide
  have hquit : ¬ clean_string (recv_msg received).2 = "QUIT".toList := by
    intro h
    rw [h] at hv
    revert hv
    decide
  simp only [handle, hv, hadd, hdel, hlist, hquit, if_true, if_false]
  rw [e2.1]
  rcases (tokens (clean_string (recv_msg received).2)).tail with _ | ⟨f, r⟩
  · simp
  · simp

/-- A LIST line runs the loop over the rows of the file listing. -/
theorem handle_list (peeraddr : List Char) (cat : Catalog) (plan : Option FaultPlan)
    (received : List Char)
    (hv : clean_string (recv_msg received).2 = "LIST".toList) :
    handle peeraddr cat plan received =
      match (select_loop "ERROR L0\n".toList plan 0 (select_files cat)).2 with
      | LoopEnd.done =>
        ⟨(select_loop "ERROR L0\n".toList plan 0 (select_files cat)).1 ++
          ["OK\n".toList], cat, Control.ready⟩
      | LoopEnd.error =>
        ⟨(select_loop "ERROR L0\n".toList plan 0 (select_files cat)).1, cat,
          Control.fatal⟩
      | LoopEnd.hang =>
        ⟨(select_loop "ERROR L0\n".toList plan 0 (select_files cat)).1, cat,
          Control.hang⟩ := by
  have h3 : ¬ ("LIST".toList.take 3 = "ADD".toList) := by decide
  have h6 : ¬ ("LIST".toList.take 6 = "DELETE".toList) := by decide
  simp only [handle, hv, h3, h6, if_true, if_false]

/-- With the store working, the loop over a SELECT statement sends one line
per result row and ends with `SQLITE_DONE`. -/
theorem select_loop_none (errLine : List Char) (i : Nat) (rows : List (List Char × Int)) :
    select_loop errLine none i rows =
      (rows.map (fun r => fmt_row r.1 (wrap32 r.2)), LoopEnd.done) := by
  induction rows generalizing i with
  | nil => simp [select_loop, failsAt]
  | cons r rows ih => simp [select_loop, failsAt, ih]

theorem validate_int_loop_zero (s : List Char) : validate_int_loop s 0 = 0 := by
  induction s with
  | nil => rfl
  | cons c cs ih => simpa [validate_int_loop] using ih

/-- The validator returns 1 exactly when every character is a digit. -/
theorem validate_int_eq_one_iff (s : List Char) :
    validate_int s = 1 ↔ ∀ c ∈ s, isdigit c = true := by
  unfold validate_int
  induction s with
  | nil => simp [validate_int_loop]
  | cons c cs ih =>
    by_cases hc : isdigit c = true
    · simp [validate_int_loop, hc, ih]
    · simp [validate_int_loop, hc, validate_int_loop_zero]

theorem isDigits_validate {s : List Char} (h : isDigits s = true) : validate_int s = 1 := by
  simp only [isDigits, Bool.and_eq_true, decide_eq_true_eq, List.all_eq_true] at h
  exact (validate_int_eq_one_iff s).mpr h.2

theorem mem_tokens_ne_nil {line t : List Char} (h : t ∈ tokens line) : t ≠ [] := by
  simp only [tokens, List.mem_filter, decide_eq_true_eq] at h
  exact h.2

/-- A text without quote character is read by SQLite as itself. -/
theorem sqlText_noQuote {t : List Char} (h : noQuote t = true) : sqlText t = some t := by
  induction t with
  | nil => rfl
  | cons c cs ih =>
    unfold noQuote at h ih
    rw [List.all_cons, Bool.and_eq_true, bne_iff_ne] at h
    cases cs with
    | nil => simp [sqlText, h.1]
    | cons d ds => simp [sqlText, h.1, ih h.2]

/-! ## Argument validation -/

/-- Claim C3: argument-validation codes.  The tokens of the cleaned line are
its blank-separated words, the first being the verb word.  For a line that
starts with ADD the reply is `ERROR A1` when no token follows the verb, else
`ERROR A2` when only the file token follows, else `ERROR A3` when the size
token is missing or is not made of decimal digits only; for a line that
starts with DELETE the reply is `ERROR D1` without file token, else
`ERROR D2` without hash token; for a line that starts with REQUEST the reply
is `ERROR R1` without file token.  The store is not consulted: the replies
hold for every table and every store failure. -/
theorem argument_validation_codes (peeraddr : List Char) (cat : Catalog)
    (plan : Option FaultPlan) (received line : List Char)
    (hl : clean_string (recv_msg received).2 = line) :
    (line.take 3 = "ADD".toList →
      ((tokens line).length ≤ 1 →
        (handle peeraddr cat plan received).out = ["ERROR A1\n".toList]) ∧
      ((tokens line).length = 2 →
        (handle peeraddr cat plan received).out = ["ERROR A2\n".toList]) ∧
      ((tokens line).length = 3 →
        (handle peeraddr cat plan received).out = ["ERROR A3\n".toList]) ∧
      (∀ s, (tokens line)[3]? = some s → isDigits s = false →
        (handle peeraddr cat plan received).out = ["ERROR A3\n".toList])) ∧
    (line.take 6 = "DELETE".toList →
      ((tokens line).length ≤ 1 →
        (handle peeraddr cat plan received).out = ["ERROR D1\n".toList]) ∧
      ((tokens line).length = 2 →
        (handle peeraddr cat plan received).out = ["ERROR D2\n".toList])) ∧
    (line.take 7 = "REQUEST".toList →
      ((tokens line).length ≤ 1 →
        (handle peeraddr cat plan received).out = ["ERROR R1\n".toList])) := by
  subst hl
  refine ⟨fun hv => ?_, fun hv => ?_, fun hv => ?_⟩
  · rw [handle_add peeraddr cat plan received hv]
    refine ⟨fun hlen => ?_, fun hlen => ?_, fun hlen => ?_, fun s hs hd => ?_⟩
    · rcases htk : tokens (clean_string (recv_msg received).2) with _ | ⟨v, _ | ⟨f, r⟩⟩
      · simp
      · simp
      · rw [htk] at hlen
        simp at hlen
    · rcases htk : tokens (clean_string (recv_msg received).2) with
        _ | ⟨v, _ | ⟨f, _ | ⟨h, r⟩⟩⟩
      · rw [htk] at hlen
        simp at hlen
      · rw [htk] at hlen
        simp at hlen
      · simp
      · rw [htk] at hlen
        simp at hlen
    · rcases htk : tokens (clean_string (recv_msg received).2) with
        _ | ⟨v, _ | ⟨f, _ | ⟨h, _ | ⟨z, r⟩⟩⟩⟩
      · rw [htk] at hlen
        simp at hlen
      · rw [htk] at hlen
        simp at hlen
      · rw [htk] at hlen
        simp at hlen
      · simp
      · rw [htk] at hlen
        simp at hlen
    · have hmem : s ∈ tokens (clean_string (recv_msg received).2) :=
        List.getElem?_mem hs
      have hne : s ≠ [] := mem_tokens_ne_nil hmem
      have hval : ¬ validate_int s = 1 := by
        intro h1
        have hall := (validate_int_eq_one_iff s).mp h1
        have : isDigits s = true := by
          simp only [isDigits, Bool.and_eq_true, decide_eq_true_eq, List.all_eq_true]
          exact ⟨hne, hall⟩
        rw [this] at hd
        exact Bool.noConfusion hd
      rcases htk : tokens (clean_string (recv_msg received).2) with
        _ | ⟨v, _ | ⟨f, _ | ⟨h, _ | ⟨z, r⟩⟩⟩⟩
      · rw [htk] at hs
        simp at hs
      · rw [htk] at hs
        simp at hs
      · rw [htk] at hs
        simp at hs
      · rw [htk] at hs
        simp at hs
      · rw [htk] at hs
        simp only [List.getElem?_cons_succ, List.getElem?_cons_zero,
          Option.some.injEq] at hs
        subst hs
        simp [hval]
  · rw [handle_delete peeraddr cat plan received hv]
    refine ⟨fun hlen => ?_, fun hlen => ?_⟩
    · rcases htk : tokens (clean_string (recv_msg received).2) with _ | ⟨v, _ | ⟨f, r⟩⟩
      · simp
      · simp
      · rw [htk] at hlen
        simp at hlen
    · rcases htk : tokens (clean_string (recv_msg received).2) with
        _ | ⟨v, _ | ⟨f, _ | ⟨h, r⟩⟩⟩
      · rw [htk] at hlen
        simp at hlen
      · rw [htk] at hlen
        simp at hlen
      · simp
      · rw [htk] at hlen
        simp at hlen
  · rw [handle_request peeraddr cat plan received hv]
    intro hlen
    rcases htk : tokens (clean_string (recv_msg received).2) with _ | ⟨v, _ | ⟨f, r⟩⟩
    · simp
    · simp
    · rw [htk] at hlen
      simp at hlen

/-- Claim C3 at the lines of scenario 4 of the specification: `ADD`,
`ADD only`, `ADD f h` and `ADD f h notanumber`, `DELETE` and `DELETE f`,
`REQUEST`. -/
theorem argument_validation_codes_witness :
    (handle "10.0.0.1".toList [] none "ADD\n".toList).out = ["ERROR A1\n".toList] ∧
    (handle "10.0.0.1".toList [] none "ADD only\n".toList).out = ["ERROR A2\n".toList] ∧
    (handle "10.0.0.1".toList [] none "ADD f h\n".toList).out = ["ERROR A3\n".toList] ∧
    (handle "10.0.0.1".toList [] none "ADD f h notanumber\n".toList).out =
      ["ERROR A3\n".toList] ∧
    (handle "10.0.0.1".toList [] none "DELETE\n".toList).out = ["ERROR D1\n".toList] ∧
    (handle "10.0.0.1".toList [] none "DELETE f\n".toList).out = ["ERROR D2\n".toList] ∧
    (handle "10.0.0.1".toList [] none "REQUEST\n".toList).out = ["ERROR R1\n".toList] :=
  ⟨((argument_validation_codes "10.0.0.1".toList [] none "ADD\n".toList
      "ADD".toList (by decide)).1 (by decide)).1 (by decide),
   ((argument_validation_codes "10.0.0.1".toList [] none "ADD only\n".toList
      "ADD only".toList (by decide)).1 (by decide)).2.1 (by decide),
   ((argument_validation_codes "10.0.0.1".toList [] none "ADD f h\n".toList
      "ADD f h".toList (by decide)).1 (by decide)).2.2.1 (by decide),
   ((argument_validation_codes "10.0.0.1".toList [] none "ADD f h notanumber\n".toList
      "ADD f h notanumber".toList (by decide)).1 (by decide)).2.2.2
      "notanumber".toList (by decide) (by decide),
   ((argument_validation_codes "10.0.0.1".toList [] none "DELETE\n".toList
      "DELETE".toList (by decide)).2.1 (by decide)).1 (by decide),
   ((argument_validation_codes "10.0.0.1".toList [] none "DELETE f\n".toList
      "DELETE f".toList (by decide)).2.1 (by decide)).2 (by decide),
   (argument_validation_codes "10.0.0.1".toList [] none "REQUEST\n".toList
      "REQUEST".toList (by decide)).2.2 (by decide) (by decide)⟩

/-! ## ADD, DELETE and REQUEST on well-formed lines -/

theorem tokens_addLine {f h s : List Char} (hf : isToken f = true)
    (hh : isToken h = true) (hs : isToken s = true) :
    tokens (addLine f h s) = ["ADD".toList, f, h, s] := by
  unfold addLine
  rw [tokens_token_cons (by decide) _, tokens_token_cons hf _, tokens_token_cons hh _,
    tokens_token hs]

theorem tokens_deleteLine {f h : List Char} (hf : isToken f = true)
    (hh : isToken h = true) :
    tokens (deleteLine f h) = ["DELETE".toList, f, h] := by
  unfold deleteLine
  rw [tokens_token_cons (by decide) _, tokens_token_cons hf _, tokens_token hh]

theorem tokens_requestLine {f : List Char} (hf : isToken f = true) :
    tokens (requestLine f) = ["REQUEST".toList, f] := by
  unfold requestLine
  rw [tokens_token_cons (by decide) _, tokens_token hf]

/-- Effect of `ADD f h s` with the store working, where SQLite reads the
pasted texts `f`, `h` and the address as `f1`, `h1` and `p1` (the texts
themselves when they hold no quote character): `ERROR A4` and no change when
a row with the triple (f1, h1, p1) is present, else `OK` and one new row with
that triple and the size `atoi s`, put after the old rows. -/
theorem add_effect (peeraddr : List Char) (cat : Catalog) (received f h s : List Char)
    (f1 h1 p1 : List Char)
    (hl : clean_string (recv_msg received).2 = addLine f h s)
    (hf : isToken f = true) (hh : isToken h = true) (hs : isDigits s = true)
    (qf : sqlText f = some f1) (qh : sqlText h = some h1)
    (qp : sqlText peeraddr = some p1) :
    ((∃ r ∈ cat, r.file = f1 ∧ r.hash = h1 ∧ r.peer = p1) →
      handle peeraddr cat none received = ⟨["ERROR A4\n".toList], cat, Control.ready⟩) ∧
    ((¬ ∃ r ∈ cat, r.file = f1 ∧ r.hash = h1 ∧ r.peer = p1) →
      handle peeraddr cat none received =
        ⟨["OK\n".toList], cat ++ [⟨f1, h1, atoi s, p1⟩], Control.ready⟩) := by
  have hv : (clean_string (recv_msg received).2).take 3 = "ADD".toList := by
    rw [hl]
    rfl
  rw [handle_add peeraddr cat none received hv, hl,
    tokens_addLine hf hh (isDigits_isToken hs)]
  simp only [List.tail_cons, isDigits_validate hs, if_true, sqlite_insert, qf, qh, qp,
    failsAt]
  constructor
  · intro hex
    simp only [List.any_eq_true, decide_eq_true_eq]
    rw [if_pos hex]
  · intro hex
    simp only [List.any_eq_true, decide_eq_true_eq]
    rw [if_neg hex]

/-- Effect of `DELETE f h` with the store working, where SQLite reads the
pasted texts as `f1`, `h1` and `p1`: the reply is `OK` and the rows with
the triple (f1, h1, p1) are removed, all other rows staying in place. -/
theorem delete_effect (peeraddr : List Char) (cat : Catalog) (received f h : List Char)
    (f1 h1 p1 : List Char)
    (hl : clean_string (recv_msg received).2 = deleteLine f h)
    (hf : isToken f = true) (hh : isToken h = true)
    (qf : sqlText f = some f1) (qh : sqlText h = some h1)
    (qp : sqlText peeraddr = some p1) :
    handle peeraddr cat none received =
      ⟨["OK\n".toList],
        cat.filter (fun r => ! decide (r.file = f1 ∧ r.hash = h1 ∧ r.peer = p1)),
        Control.ready⟩ := by
  have hv : (clean_string (recv_msg received).2).take 6 = "DELETE".toList := by
    rw [hl]
    rfl
  rw [handle_delete peeraddr cat none received hv, hl, tokens_deleteLine hf hh]
  simp only [List.tail_cons, sqlite_delete, qf, qh, qp, failsAt]

/-- Effect of `REQUEST f` with the store working, where SQLite reads the
pasted text as `f1`: one line per result row of the peer query for `f1`,
then `OK`; the table is not changed. -/
theorem request_effect (peeraddr : List Char) (cat : Catalog) (received f f1 : List Char)
    (hl : clean_string (recv_msg received).2 = requestLine f)
    (hf : isToken f = true) (qf : sqlText f = some f1) :
    handle peeraddr cat none received =
      ⟨(select_peers cat f1).map (fun r => fmt_row r.1 (wrap32 r.2)) ++ ["OK\n".toList],
        cat, Control.ready⟩ := by
  have hv : (clean_string (recv_msg received).2).take 7 = "REQUEST".toList := by
    rw [hl]
    rfl
  rw [handle_request peeraddr cat none received hv, hl, tokens_requestLine hf]
  simp only [List.tail_cons, qf, select_loop_none]

/-! ## Tokens with a quote character -/

/-- Claim C1 at the line ADD a''b h 1 (the file token holds two quote
characters) from address 10.0.0.1.  On the empty table the reply is `OK` and
the new row has the file a'b, not the token; and on a table that already
holds the row of the token itself the reply is `OK`, not `ERROR A4`, and
the same foreign row is added. -/
theorem add_quoted_token_stores_other_file :
    handle "10.0.0.1".toList [] none "ADD a\x27\x27b h 1\n".toList =
      ⟨["OK\n".toList], [⟨"a\x27b".toList, "h".toList, 1, "10.0.0.1".toList⟩],
        Control.ready⟩ ∧
    handle "10.0.0.1".toList
        [⟨"a\x27\x27b".toList, "h".toList, 1, "10.0.0.1".toList⟩] none
        "ADD a\x27\x27b h 1\n".toList =
      ⟨["OK\n".toList],
        [⟨"a\x27\x27b".toList, "h".toList, 1, "10.0.0.1".toList⟩,
         ⟨"a\x27b".toList, "h".toList, 1, "10.0.0.1".toList⟩],
        Control.ready⟩ := by
  decide

/-- Claim C2 at the single command ADD a''b h 1 of peer 10.0.0.1, from the
empty table: the table then holds the triple (a'b, h, 10.0.0.1), while the
replay of the command holds the triple of the token, (a''b, h, 10.0.0.1). -/
theorem serve_quoted_token_differs_from_replay :
    (serve [] [(Op.add "a\x27\x27b".toList "h".toList "1".toList
        "10.0.0.1".toList).request]).map Row.key =
      [("a\x27b".toList, "h".toList, "10.0.0.1".toList)] ∧
    replay [] [Op.add "a\x27\x27b".toList "h".toList "1".toList "10.0.0.1".toList] =
      [("a\x27\x27b".toList, "h".toList, "10.0.0.1".toList)] ∧
    (serve [] [(Op.add "a\x27\x27b".toList "h".toList "1".toList
        "10.0.0.1".toList).request]).map Row.key ≠
      replay [] [Op.add "a\x27\x27b".toList "h".toList "1".toList "10.0.0.1".toList] := by
  decide

/-- Claim C5 at the line REQUEST a''b on a table whose only row has the
file a'b: the row of that other file is listed. -/
theorem request_quoted_token_lists_other_file :
    handle "10.0.0.1".toList [⟨"a\x27b".toList, "h".toList, 7, "10.0.0.2".toList⟩] none
        "REQUEST a\x27\x27b\n".toList =
      ⟨["10.0.0.2 7\n".toList, "OK\n".toList],
        [⟨"a\x27b".toList, "h".toList, 7, "10.0.0.2".toList⟩], Control.ready⟩ := by
  decide

/-- Claim C6 at the line DELETE a''b h from address 10.0.0.1 on a table
whose only row is (a'b, h, 7, 10.0.0.1): that row, whose file differs from
the token, is removed. -/
theorem delete_quoted_token_removes_other_row :
    handle "10.0.0.1".toList [⟨"a\x27b".toList, "h".toList, 7, "10.0.0.1".toList⟩] none
        "DELETE a\x27\x27b h\n".toList =
      ⟨["OK\n".toList], [], Control.ready⟩ := by
  decide

/-! ## Round trip of ADD and DELETE -/

/-- Claim C7 as stated fails when the table already holds the row: from the
table with the single row (song.mp3, abc123, 4096, 10.0.0.1), the line
`ADD song.mp3 abc123 4096` of that peer is answered `ERROR A4` and the
following `DELETE song.mp3 abc123` removes the older row, so the triple is
not in the state it had before the ADD. -/
theorem add_delete_removes_older_row :
    handle "10.0.0.1".toList
        [⟨"song.mp3".toList, "abc123".toList, 4096, "10.0.0.1".toList⟩] none
        "ADD song.mp3 abc123 4096\n".toList =
      ⟨["ERROR A4\n".toList],
        [⟨"song.mp3".toList, "abc123".toList, 4096, "10.0.0.1".toList⟩],
        Control.ready⟩ ∧
    handle "10.0.0.1".toList
        [⟨"song.mp3".toList, "abc123".toList, 4096, "10.0.0.1".toList⟩] none
        "DELETE song.mp3 abc123\n".toList =
      ⟨["OK\n".toList], [], Control.ready⟩ := by
  decide

/-- Claim C7, amended: for tokens `f`, `h` and an address without quote
character and a digit token `s`, with the store working, the table after
`ADD f h s` and then `DELETE f h` on one session is the table before the ADD
without the rows of the triple (f, h, address), every other row unchanged
and in place.  When the table held no such row the ADD is answered `OK` and
the table is back in its state before the ADD; when it held one the ADD is
answered `ERROR A4` and the DELETE removes the older row. -/
theorem add_delete_round_trip (peeraddr : List Char) (cat : Catalog)
    (recvAdd recvDel f h s : List Char)
    (hadd : clean_string (recv_msg recvAdd).2 = addLine f h s)
    (hdel : clean_string (recv_msg recvDel).2 = deleteLine f h)
    (hf : isToken f = true) (hh : isToken h = true) (hs : isDigits s = true)
    (qf : noQuote f = true) (qh : noQuote h = true) (qp : noQuote peeraddr = true) :
    (handle peeraddr (handle peeraddr cat none recvAdd).cat none recvDel).cat =
      cat.filter (fun r => decide (r.key ≠ (f, h, peeraddr))) ∧
    ((∀ r ∈ cat, r.key ≠ (f, h, peeraddr)) →
      (handle peeraddr cat none recvAdd).out = ["OK\n".toList] ∧
      (handle peeraddr (handle peeraddr cat none recvAdd).cat none recvDel).cat = cat) ∧
    ((∃ r ∈ cat, r.key = (f, h, peeraddr)) →
      (handle peeraddr cat none recvAdd).out = ["ERROR A4\n".toList]) := by
  have ha := add_effect peeraddr cat recvAdd f h s f h peeraddr hadd hf hh hs
    (sqlText_noQuote qf) (sqlText_noQuote qh) (sqlText_noQuote qp)
  have hkey : ∀ r : Row, (r.file = f ∧ r.hash = h ∧ r.peer = peeraddr) ↔
      r.key = (f, h, peeraddr) := by
    intro r
    simp [Row.key]
  have hfilter : ∀ c : Catalog,
      c.filter (fun r => ! decide (r.file = f ∧ r.hash = h ∧ r.peer = peeraddr)) =
      c.filter (fun r => decide (r.key ≠ (f, h, peeraddr))) := by
    intro c
    apply List.filter_congr
    intro r _
    simp [Row.key]
  have hd := fun c => delete_effect peeraddr c recvDel f h f h peeraddr hdel hf hh
    (sqlText_noQuote qf) (sqlText_noQuote qh) (sqlText_noQuote qp)
  by_cases hex : ∃ r ∈ cat, r.file = f ∧ r.hash = h ∧ r.peer = peeraddr
  · have h1 := ha.1 hex
    rw [h1, hd cat]
    refine ⟨hfilter cat, fun hall => ?_, fun _ => rfl⟩
    obtain ⟨r, hr, hk⟩ := hex
    exact absurd ((hkey r).mp hk) (hall r hr)
  · have h1 := ha.2 hex
    rw [h1, hd]
    have hnone : ∀ r ∈ cat, r.key ≠ (f, h, peeraddr) := by
      intro r hr hk
      exact hex ⟨r, hr, (hkey r).mpr hk⟩
    have hsame : cat.filter (fun r => decide (r.key ≠ (f, h, peeraddr))) = cat :=
      List.filter_eq_self.mpr (fun r hr => by simpa using hnone r hr)
    have hcat : (cat ++ [(⟨f, h, atoi s, peeraddr⟩ : Row)]).filter
        (fun r => ! decide (r.file = f ∧ r.hash = h ∧ r.peer = peeraddr)) = cat := by
      rw [hfilter, List.filter_append, hsame]
      simp [Row.key]
    refine ⟨?_, fun _ => ⟨rfl, hcat⟩, fun hex2 => ?_⟩
    · simp only []
      rw [hcat, hsame]
    · obtain ⟨r, hr, hk⟩ := hex2
      exact absurd hk (hnone r hr)

/-- Claim C7, amended, at scenario 2 of the specification: the table holds a
row of another peer, `ADD song.mp3 abc123 4096` is answered `OK` and the
table after `DELETE song.mp3 abc123` is the one before the ADD. -/
theorem add_delete_round_trip_witness :
    (handle "10.0.0.1".toList
        [⟨"song.mp3".toList, "abc123".toList, 4096, "10.0.0.2".toList⟩] none
        "ADD song.mp3 abc123 4096\n".toList).out = ["OK\n".toList] ∧
    (handle "10.0.0.1".toList
        (handle "10.0.0.1".toList
          [⟨"song.mp3".toList, "abc123".toList, 4096, "10.0.0.2".toList⟩] none
          "ADD song.mp3 abc123 4096\n".toList).cat none
        "DELETE song.mp3 abc123\n".toList).cat =
      [⟨"song.mp3".toList, "abc123".toList, 4096, "10.0.0.2".toList⟩] :=
  (add_delete_round_trip "10.0.0.1".toList
    [⟨"song.mp3".toList, "abc123".toList, 4096, "10.0.0.2".toList⟩]
    "ADD song.mp3 abc123 4096\n".toList "DELETE song.mp3 abc123\n".toList
    "song.mp3".toList "abc123".toList "4096".toList
    (by decide) (by decide) (by decide) (by decide) (by decide) (by decide) (by decide)
    (by decide)).2.1 (by decide)

/-! ## LIST and REQUEST: order and content of the result rows -/

theorem textLe_total (a b : List Char) : textLe a b = true ∨ textLe b a = true := by
  induction a generalizing b with
  | nil => exact Or.inl (by simp [textLe])
  | cons x xs ih =>
    cases b with
    | nil => exact Or.inr (by simp [textLe])
    | cons y ys =>
      rcases Nat.lt_trichotomy x.toNat y.toNat with hlt | heq | hgt
      · exact Or.inl (by simp [textLe, hlt])
      · rcases ih ys with h | h
        · exact Or.inl (by simp [textLe, heq, h])
        · exact Or.inr (by simp [textLe, heq, h])
      · exact Or.inr (by simp [textLe, hgt])

theorem textLe_trans {a b c : List Char} (hab : textLe a b = true)
    (hbc : textLe b c = true) : textLe a c = true := by
  induction a generalizing b c with
  | nil => simp [textLe]
  | cons x xs ih =>
    cases b with
    | nil => simp [textLe] at hab
    | cons y ys =>
      cases c with
      | nil => simp [textLe] at hbc
      | cons z zs =>
        simp only [textLe] at hab hbc ⊢
        by_cases hxy : x.toNat < y.toNat
        · by_cases hyz : y.toNat < z.toNat
          · have : x.toNat < z.toNat := by omega
            simp [this]
          · by_cases hzy : z.toNat < y.toNat
            · simp [hyz, hzy] at hbc
            · have : x.toNat < z.toNat := by omega
              simp [this]
        · by_cases hyx : y.toNat < x.toNat
          · simp [hxy, hyx] at hab
          · simp only [hxy, hyx, if_false] at hab
            by_cases hyz : y.toNat < z.toNat
            · have : x.toNat < z.toNat := by omega
              simp [this]
            · by_cases hzy : z.toNat < y.toNat
              · simp [hyz, hzy] at hbc
              · simp only [hyz, hzy, if_false] at hbc
                have h1 : ¬ x.toNat < z.toNat := by omega
                have h2 : ¬ z.toNat < x.toNat := by omega
                simp only [h1, h2, if_false]
                exact ih hab hbc

theorem keyLe_sorted_insertionSort (l : List (List Char × Int)) :
    List.Pairwise keyLe (l.insertionSort keyLe) :=
  @List.sorted_insertionSort _ keyLe _ ⟨fun a b => textLe_total a.1 b.1⟩
    ⟨fun _ _ _ hab hbc => textLe_trans hab hbc⟩ l

/-- The file query returns the distinct pairs (file, size) of the table,
each once, in ascending order of file. -/
theorem select_files_spec (cat : Catalog) :
    List.Pairwise (fun a b => textLe a.1 b.1 = true) (select_files cat) ∧
    (select_files cat).Nodup ∧
    ∀ x, x ∈ select_files cat ↔ ∃ r ∈ cat, (r.file, r.size) = x := by
  refine ⟨keyLe_sorted_insertionSort _, ?_, fun x => ?_⟩
  · exact (List.perm_insertionSort keyLe _).nodup_iff.mpr (List.nodup_dedup _)
  · rw [select_files, (List.perm_insertionSort keyLe _).mem_iff, List.mem_dedup,
      List.mem_map]

/-- The peer query for a file returns one pair (peer, size) per row of that
file, in ascending order of peer. -/
theorem select_peers_spec (cat : Catalog) (f : List Char) :
    List.Pairwise (fun a b => textLe a.1 b.1 = true) (select_peers cat f) ∧
    List.Perm (select_peers cat f)
      ((cat.filter (fun r => decide (r.file = f))).map (fun r => (r.peer, r.size))) :=
  ⟨keyLe_sorted_insertionSort _, List.perm_insertionSort keyLe _⟩

/-- Claim C4 as stated fails: on a table where the file `a` is announced
with the sizes 1 and 2, LIST sends the two data lines `a 1` and `a 2`, so the
file name `a` is on two lines. -/
theorem list_repeats_file_name :
    (handle "10.0.0.1".toList
        [⟨"a".toList, "h1".toList, 1, "10.0.0.2".toList⟩,
         ⟨"a".toList, "h2".toList, 2, "10.0.0.3".toList⟩] none "LIST\n".toList).out =
      ["a 1\n".toList, "a 2\n".toList, "OK\n".toList] ∧
    ¬ ((select_files
        [⟨"a".toList, "h1".toList, 1, "10.0.0.2".toList⟩,
         ⟨"a".toList, "h2".toList, 2, "10.0.0.3".toList⟩]).map Prod.fst).Nodup := by
  decide

/-- Claim C4, amended: with the store working, LIST sends one data line per
result row of the file query and then `OK`, and leaves the table as it is;
the result rows are in ascending order of file name, each pair (file, size)
of the table is on exactly one of them, so a file name is repeated once per
distinct size announced for it. -/
theorem list_sorted_distinct_pairs (peeraddr : List Char) (cat : Catalog)
    (received : List Char)
    (hl : clean_string (recv_msg received).2 = "LIST".toList) :
    handle peeraddr cat none received =
      ⟨(select_files cat).map (fun r => fmt_row r.1 (wrap32 r.2)) ++ ["OK\n".toList],
        cat, Control.ready⟩ ∧
    List.Pairwise (fun a b => textLe a.1 b.1 = true) (select_files cat) ∧
    (select_files cat).Nodup ∧
    ∀ x, x ∈ select_files cat ↔ ∃ r ∈ cat, (r.file, r.size) = x := by
  refine ⟨?_, select_files_spec cat⟩
  rw [handle_list peeraddr cat none received hl]
  simp only [select_loop_none]

/-- Claim C4, amended, on a table of three announcements of two files: the
files `a.bin` and `song.mp3` are listed in that order, `song.mp3` once for
its two announcements of equal size. -/
theorem list_sorted_distinct_pairs_witness :
    handle "10.0.0.1".toList
        [⟨"song.mp3".toList, "abc123".toList, 4096, "10.0.0.2".toList⟩,
         ⟨"a.bin".toList, "deadbeef".toList, 1, "10.0.0.2".toList⟩,
         ⟨"song.mp3".toList, "abc123".toList, 4096, "10.0.0.3".toList⟩] none
        "LIST\r\n".toList =
      ⟨(select_files
          [⟨"song.mp3".toList, "abc123".toList, 4096, "10.0.0.2".toList⟩,
           ⟨"a.bin".toList, "deadbeef".toList, 1, "10.0.0.2".toList⟩,
           ⟨"song.mp3".toList, "abc123".toList, 4096, "10.0.0.3".toList⟩]).map
          (fun r => fmt_row r.1 (wrap32 r.2)) ++ ["OK\n".toList],
        [⟨"song.mp3".toList, "abc123".toList, 4096, "10.0.0.2".toList⟩,
         ⟨"a.bin".toList, "deadbeef".toList, 1, "10.0.0.2".toList⟩,
         ⟨"song.mp3".toList, "abc123".toList, 4096, "10.0.0.3".toList⟩],
        Control.ready⟩ ∧
    select_files
        [⟨"song.mp3".toList, "abc123".toList, 4096, "10.0.0.2".toList⟩,
         ⟨"a.bin".toList, "deadbeef".toList, 1, "10.0.0.2".toList⟩,
         ⟨"song.mp3".toList, "abc123".toList, 4096, "10.0.0.3".toList⟩] =
      [("a.bin".toList, 1), ("song.mp3".toList, 4096)] :=
  ⟨(list_sorted_distinct_pairs "10.0.0.1".toList
      [⟨"song.mp3".toList, "abc123".toList, 4096, "10.0.0.2".toList⟩,
       ⟨"a.bin".toList, "deadbeef".toList, 1, "10.0.0.2".toList⟩,
       ⟨"song.mp3".toList, "abc123".toList, 4096, "10.0.0.3".toList⟩]
      "LIST\r\n".toList (by decide)).1, by decide⟩

/-! ## Teardown -/

theorem fault_status_ne_done (f : Fault) : f.status ≠ Status.SQLITE_DONE := by
  cases f <;> simp [Fault.status]

/-- When the purge statement does not fail, the disconnect routines leave
the table without the rows of the peer, for an address without quote
character. -/
theorem disconnect_purged (peeraddr : List Char) (cat : Catalog) (c_count : Int)
    (plan : Option FaultPlan) (close_rc : Int) (hq : noQuote peeraddr = true)
    (hstore : failsAt plan 0 = none) :
    (disconnect peeraddr cat c_count plan close_rc).cat =
      cat.filter (fun r => decide (r.peer ≠ peeraddr)) := by
  have hfilter : cat.filter (fun r => ! decide (r.peer = peeraddr)) =
      cat.filter (fun r => decide (r.peer ≠ peeraddr)) := by
    apply List.filter_congr
    intro r _
    simp
  unfold disconnect
  simp only [sqlite_purge, sqlText_noQuote hq, hstore, ne_eq, not_true_eq_false, if_false]
  split_ifs <;> exact hfilter

/-- Claim C8 as stated fails when the store fails during the purge: the
session of peer 10.0.0.1 that connects, adds a file and quits, and whose
purge ends with `SQLITE_ERROR`, leaves its row in the table after the
teardown. -/
theorem failed_purge_keeps_rows :
    (session_loops "10.0.0.1".toList [] []
        [⟨"CONNECT\n".toList, none⟩, ⟨"ADD song.mp3 abc123 4096\n".toList, none⟩,
         ⟨"QUIT\n".toList, none⟩]).exit = Exit.quit ∧
    (p2p "10.0.0.1".toList 1 []
        ⟨[], [⟨"CONNECT\n".toList, none⟩, ⟨"ADD song.mp3 abc123 4096\n".toList, none⟩,
              ⟨"QUIT\n".toList, none⟩], some ⟨0, Fault.error⟩, 0⟩).cat =
      [⟨"song.mp3".toList, "abc123".toList, 4096, "10.0.0.1".toList⟩] := by
  decide

/-- Claim C8, amended: for every session of an address p (a printed network
address, without quote character), every table and every script of received
messages that ends the command loop by QUIT or by a fatal store error: when
the purge statement of the teardown does not fail, the table after the
teardown holds no row whose peer is p, and it is the table at the start of
the teardown without the rows of p, the rows of other peers unchanged and in
place. -/
theorem teardown_purges_peer (peeraddr : List Char) (c_count : Int) (cat : Catalog)
    (env : Env) (hq : noQuote peeraddr = true)
    (hexit : (session_loops peeraddr env.in0 cat env.events).exit = Exit.quit ∨
      (session_loops peeraddr env.in0 cat env.events).exit = Exit.fatal)
    (hstore : failsAt env.purge 0 = none) :
    (∀ r ∈ (p2p peeraddr c_count cat env).cat, r.peer ≠ peeraddr) ∧
    (p2p peeraddr c_count cat env).cat =
      (session_loops peeraddr env.in0 cat env.events).cat.filter
        (fun r => decide (r.peer ≠ peeraddr)) := by
  have key : (p2p peeraddr c_count cat env).cat =
      (session_loops peeraddr env.in0 cat env.events).cat.filter
        (fun r => decide (r.peer ≠ peeraddr)) := by
    unfold p2p
    rcases hexit with hx | hx
    · simp only [hx]
      exact disconnect_purged peeraddr _ c_count env.purge env.close_rc hq hstore
    · simp only [hx]
      exact disconnect_purged peeraddr _ c_count env.purge env.close_rc hq hstore
  refine ⟨fun r hr => ?_, key⟩
  rw [key, List.mem_filter] at hr
  simpa using hr.2

/-- Claim C8, amended, on a session of peer 10.0.0.1 that connects, adds two
files and quits, with a row of peer 10.0.0.2 in the table: after the
teardown only the row of the other peer is left. -/
theorem teardown_purges_peer_witness :
    (p2p "10.0.0.1".toList 1
        [⟨"report.pdf".toList, "cafef00d".toList, 1000, "10.0.0.2".toList⟩]
        ⟨[], [⟨"CONNECT\n".toList, none⟩,
              ⟨"ADD song.mp3 abc123 4096\n".toList, none⟩,
              ⟨"ADD report.pdf deadbeef 1000\n".toList, none⟩,
              ⟨"QUIT\n".toList, none⟩], none, 0⟩).cat =
      [⟨"report.pdf".toList, "cafef00d".toList, 1000, "10.0.0.2".toList⟩] ∧
    ∀ r ∈ (p2p "10.0.0.1".toList 1
        [⟨"report.pdf".toList, "cafef00d".toList, 1000, "10.0.0.2".toList⟩]
        ⟨[], [⟨"CONNECT\n".toList, none⟩,
              ⟨"ADD song.mp3 abc123 4096\n".toList, none⟩,
              ⟨"ADD report.pdf deadbeef 1000\n".toList, none⟩,
              ⟨"QUIT\n".toList, none⟩], none, 0⟩).cat, r.peer ≠ "10.0.0.1".toList :=
  ⟨by decide,
    (teardown_purges_peer "10.0.0.1".toList 1
      [⟨"report.pdf".toList, "cafef00d".toList, 1000, "10.0.0.2".toList⟩]
      ⟨[], [⟨"CONNECT\n".toList, none⟩,
            ⟨"ADD song.mp3 abc123 4096\n".toList, none⟩,
            ⟨"ADD report.pdf deadbeef 1000\n".toList, none⟩,
            ⟨"QUIT\n".toList, none⟩], none, 0⟩ (by decide) (by decide) (by decide)).1⟩

/-- Claim C9 on the session `CONNECT`, `QUIT` of peer 10.0.0.1 whose purge
fails with `SQLITE_ERROR`, started with two live peers: GOODBYE is sent and
the counter is decremented to 1, but `p2p` returns -1 before `close` is
called, so the socket is not closed; with the purge working the same session
closes it and returns 0. -/
theorem failed_purge_leaves_socket_open :
    p2p "10.0.0.1".toList 2 []
        ⟨[], [⟨"CONNECT\n".toList, none⟩, ⟨"QUIT\n".toList, none⟩],
          some ⟨0, Fault.error⟩, 0⟩ =
      ⟨[banner, "HELLO\n".toList, "GOODBYE\n".toList], [], 1, false, some (-1)⟩ ∧
    p2p "10.0.0.1".toList 2 []
        ⟨[], [⟨"CONNECT\n".toList, none⟩, ⟨"QUIT\n".toList, none⟩], none, 0⟩ =
      ⟨[banner, "HELLO\n".toList, "GOODBYE\n".toList], [], 1, true, some 0⟩ := by
  decide

/-! ## Reads of zero bytes -/

/-- What a statement can do to the table. -/
theorem sqlite_insert_cat (cat : Catalog) (plan : Option FaultPlan)
    (filename filehash : List Char) (f_size : Int) (peeraddr : List Char) :
    (sqlite_insert cat plan filename filehash f_size peeraddr).2 = cat ∨
    ∃ row : Row, (∀ r ∈ cat, r.key ≠ row.key) ∧
      (sqlite_insert cat plan filename filehash f_size peeraddr).2 = cat ++ [row] := by
  unfold sqlite_insert
  split
  · split
    · exact Or.inl rfl
    · split_ifs with hany
      · exact Or.inl rfl
      · refine Or.inr ⟨_, ?_, rfl⟩
        intro r hr hk
        apply hany
        simp only [List.any_eq_true, decide_eq_true_eq]
        refine ⟨r, hr, ?_⟩
        simpa [Row.key] using hk
  · exact Or.inl rfl

theorem sqlite_delete_cat (cat : Catalog) (plan : Option FaultPlan)
    (filename filehash peeraddr : List Char) :
    ∃ q : Row → Bool, (sqlite_delete cat plan filename filehash peeraddr).2 = cat.filter q := by
  unfold sqlite_delete
  split
  · split
    · exact ⟨fun _ => true, by simp⟩
    · exact ⟨_, rfl⟩
  · exact ⟨fun _ => true, by simp⟩

theorem handle_cat (peeraddr : List Char) (cat : Catalog) (plan : Option FaultPlan)
    (received : List Char) :
    (∃ q : Row → Bool, (handle peeraddr cat plan received).cat = cat.filter q) ∨
    ∃ row : Row, (∀ r ∈ cat, r.key ≠ row.key) ∧
      (handle peeraddr cat plan received).cat = cat ++ [row] := by
  have hsame : ∃ q : Row → Bool, cat = cat.filter q := ⟨fun _ => true, by simp⟩
  unfold handle
  simp only []
  repeat' split
  all_goals first
    | exact Or.inl hsame
    | (rcases sqlite_insert_cat cat plan _ _ _ peeraddr with h | h
       · exact Or.inl ⟨fun _ => true, by simpa using h⟩
       · exact Or.inr h)
    | exact Or.inl (sqlite_delete_cat cat plan _ _ peeraddr)


theorem handle_keys_nodup (peeraddr : List Char) (cat : Catalog)
    (plan : Option FaultPlan) (received : List Char)
    (h : (cat.map Row.key).Nodup) :
    ((handle peeraddr cat plan received).cat.map Row.key).Nodup := by
  rcases handle_cat peeraddr cat plan received with ⟨q, hq⟩ | ⟨row, hnew, hrow⟩
  · rw [hq]
    exact h.sublist ((List.filter_sublist cat).map Row.key)
  · rw [hrow, List.map_append, List.nodup_append]
    refine ⟨h, by simp, ?_⟩
    intro k hk1 hk2
    simp only [List.map_cons, List.map_nil, List.mem_singleton] at hk2
    obtain ⟨r, hr, hrk⟩ := List.mem_map.mp hk1
    exact hnew r hr (hrk.trans hk2)

/-- Uniqueness invariant: whatever the sessions send and however the store
fails, a table without two rows of one triple (file, hash, peer) stays so;
in particular every table reached from the empty one is so. -/
theorem serve_keys_nodup (reqs : List Request) (cat : Catalog)
    (h : (cat.map Row.key).Nodup) : ((serve cat reqs).map Row.key).Nodup := by
  induction reqs generalizing cat with
  | nil => exact h
  | cons r rs ih => exact ih _ (handle_keys_nodup r.peer cat r.plan r.received h)

theorem addLine_clean {f h s : List Char} (hf : isToken f = true)
    (hh : isToken h = true) (hs : isToken s = true) :
    clean_string (recv_msg (addLine f h s)).2 = addLine f h s := by
  apply recv_clean_of_clean
  intro c hc
  simp only [addLine, List.mem_append, List.mem_cons] at hc
  rcases hc with hc | hc | hc | hc | hc | hc | hc
  · have : c = 'A' ∨ c = 'D' := by
      simp only [String.toList] at hc
      revert hc
      simp
    rcases this with rfl | rfl <;> decide
  · subst hc
    decide
  · exact (isToken_mem hf hc).2
  · subst hc
    decide
  · exact (isToken_mem hh hc).2
  · subst hc
    decide
  · exact (isToken_mem hs hc).2

theorem deleteLine_clean {f h : List Char} (hf : isToken f = true)
    (hh : isToken h = true) :
    clean_string (recv_msg (deleteLine f h)).2 = deleteLine f h := by
  apply recv_clean_of_clean
  intro c hc
  simp only [deleteLine, List.mem_append, List.mem_cons] at hc
  rcases hc with hc | hc | hc | hc | hc
  · have : c = 'D' ∨ c = 'E' ∨ c = 'L' ∨ c = 'T' := by
      simp only [String.toList] at hc
      revert hc
      simp
      tauto
    rcases this with rfl | rfl | rfl | rfl <;> decide
  · subst hc
    decide
  · exact (isToken_mem hf hc).2
  · subst hc
    decide
  · exact (isToken_mem hh hc).2

/-- For operations with well-formed tokens that hold no quote character, the
triples of the table follow the replay of the specification: an ADD of a
triple already present adds nothing, any other ADD adds its triple, a DELETE
removes its triple. -/
theorem serve_eq_replay (ops : List Op) (cat : Catalog)
    (hp : ∀ o ∈ ops, o.plain = true) :
    (serve cat (ops.map Op.request)).map Row.key = replay (cat.map Row.key) ops := by
  induction ops generalizing cat with
  | nil => rfl
  | cons o ops ih =>
    have ho := hp o (List.mem_cons_self o ops)
    have ih1 := fun c => ih c (fun o1 h1 => hp o1 (List.mem_cons_of_mem o h1))
    cases o with
    | add f h s p =>
      simp only [Op.plain, Bool.and_eq_true] at ho
      obtain ⟨⟨⟨⟨⟨hf, hh⟩, hs⟩, qf⟩, qh⟩, qp⟩ := ho
      have ha := add_effect p cat (addLine f h s) f h s f h p
        (addLine_clean hf hh (isDigits_isToken hs)) hf hh hs
        (sqlText_noQuote qf) (sqlText_noQuote qh) (sqlText_noQuote qp)
      simp only [List.map_cons, serve, Op.request, replay]
      by_cases hex : ∃ r ∈ cat, r.file = f ∧ r.hash = h ∧ r.peer = p
      · have hmem : (f, h, p) ∈ cat.map Row.key := by
          obtain ⟨r, hr, h1, h2, h3⟩ := hex
          exact List.mem_map.mpr ⟨r, hr, by simp [Row.key, h1, h2, h3]⟩
        rw [ha.1 hex, if_pos hmem]
        exact ih1 cat
      · have hmem : (f, h, p) ∉ cat.map Row.key := by
          intro hm
          obtain ⟨r, hr, hk⟩ := List.mem_map.mp hm
          exact hex ⟨r, hr, by simpa [Row.key] using hk⟩
        rw [ha.2 hex, if_neg hmem]
        rw [ih1]
        simp [Row.key]
    | delete f h p =>
      simp only [Op.plain, Bool.and_eq_true] at ho
      obtain ⟨⟨⟨⟨hf, hh⟩, qf⟩, qh⟩, qp⟩ := ho
      have hd := delete_effect p cat (deleteLine f h) f h f h p
        (deleteLine_clean hf hh) hf hh
        (sqlText_noQuote qf) (sqlText_noQuote qh) (sqlText_noQuote qp)
      simp only [List.map_cons, serve, Op.request, replay]
      rw [hd, ih1]
      congr 1
      rw [List.filter_map]
      congr 1
      apply List.filter_congr
      intro r _
      simp [Row.key]

/-! ## The sanitiser and the size validator -/

/-- Claim C16: `clean_string` returns its argument without the backspaces,
carriage returns and line feeds, all other characters kept in their order;
the result holds none of the three characters, and cleaning it again
changes nothing. -/
theorem clean_string_spec (s : List Char) :
    clean_string s = s.filter (fun c => c != '\x08' && c != '\r' && c != '\n') ∧
    (∀ c ∈ clean_string s, c ≠ '\x08' ∧ c ≠ '\r' ∧ c ≠ '\n') ∧
    clean_string (clean_string s) = clean_string s := by
  have hf : clean_string s = s.filter (fun c => c != '\x08' && c != '\r' && c != '\n') := by
    rw [clean_string_eq_filter]
    apply List.filter_congr
    intro c _
    cases c != '\x08' <;> cases c != '\r' <;> cases c != '\n' <;> rfl
  have hmem : ∀ c ∈ clean_string s, c ≠ '\x08' ∧ c ≠ '\r' ∧ c ≠ '\n' := by
    intro c hc
    rw [hf, List.mem_filter] at hc
    simpa [and_assoc] using hc.2
  refine ⟨hf, hmem, ?_⟩
  rw [clean_string_eq_filter (clean_string s)]
  exact List.filter_eq_self.mpr (fun c hc => by
    simp [(hmem c hc).1, (hmem c hc).2.1, (hmem c hc).2.2])

/-- The test `isdigit` holds exactly for the ten characters 0 to 9. -/
theorem isdigit_iff (c : Char) : isdigit c = true ↔ c ∈ "0123456789".toList := by
  constructor
  · intro h
    simp only [isdigit, Bool.and_eq_true, decide_eq_true_eq] at h
    obtain ⟨h1, h2⟩ := h
    have hc : c = Char.ofNat c.toNat := by simp
    have hn : c.toNat = 48 ∨ c.toNat = 49 ∨ c.toNat = 50 ∨ c.toNat = 51 ∨ c.toNat = 52 ∨
        c.toNat = 53 ∨ c.toNat = 54 ∨ c.toNat = 55 ∨ c.toNat = 56 ∨ c.toNat = 57 := by
      omega
    rcases hn with h | h | h | h | h | h | h | h | h | h <;>
      (rw [hc, h]; decide)
  · intro h
    simp only [String.toList, List.mem_cons, List.mem_singleton] at h
    rcases h with h | h | h | h | h | h | h | h | h | h | h
    all_goals first
      | (subst h; decide)
      | simp at h

/-- Claim C17 at the empty string: `validate_int` returns 1 for it, the loop
over its characters having no pass and the flag starting at 1.  Texts with a
leading sign are rejected with 0. -/
theorem validate_int_accepts_empty :
    validate_int [] = 1 ∧ validate_int "-5".toList = 0 ∧ validate_int "+5".toList = 0 := by
  decide

/-- What `validate_int` computes: it returns 1 or 0, and it returns 1
exactly when every character of the text is one of 0 to 9; so the empty
text is accepted, and a text that is not empty is accepted exactly when it
is a text of decimal digits.  The tokens it is applied to by the ADD command
are never empty. -/
theorem validate_int_spec (x : List Char) :
    (validate_int x = 1 ∨ validate_int x = 0) ∧
    (validate_int x = 1 ↔ ∀ c ∈ x, c ∈ "0123456789".toList) ∧
    (x ≠ [] → (validate_int x = 1 ↔ isDigits x = true)) ∧
    (∀ line : List Char, x ∈ tokens line → x ≠ []) := by
  have hiff : validate_int x = 1 ↔ ∀ c ∈ x, c ∈ "0123456789".toList := by
    rw [validate_int_eq_one_iff]
    exact ⟨fun h c hc => (isdigit_iff c).mp (h c hc),
      fun h c hc => (isdigit_iff c).mpr (h c hc)⟩
  refine ⟨?_, hiff, fun hne => ?_, fun line h => mem_tokens_ne_nil h⟩
  · have h01 : ∀ (s : List Char) (b : Int), (b = 1 ∨ b = 0) →
        (validate_int_loop s b = 1 ∨ validate_int_loop s b = 0) := by
      intro s
      induction s with
      | nil => intro b hb; exact hb
      | cons c cs ih =>
        intro b hb
        simp only [validate_int_loop]
        apply ih
        split_ifs <;> simp_all
    exact h01 x 1 (Or.inl rfl)
  · rw [validate_int_eq_one_iff]
    simp [isDigits, hne]

/-! ## Lines that are no command -/

/-- Claim C13: a READY-state line that does not start with ADD, DELETE or
REQUEST and is not LIST or QUIT is answered with exactly `ERROR C0`, the
table is unchanged and the session stays in READY, whatever the store does;
and the command loop is left by QUIT only when the whole cleaned line is
QUIT, the listing is run only when the whole cleaned line is LIST. -/
theorem unknown_command_error_c0 (peeraddr : List Char) (cat : Catalog)
    (plan : Option FaultPlan) (received line : List Char)
    (hl : clean_string (recv_msg received).2 = line) :
    (line.take 3 ≠ "ADD".toList → line.take 6 ≠ "DELETE".toList →
      line.take 7 ≠ "REQUEST".toList → line ≠ "LIST".toList → line ≠ "QUIT".toList →
      handle peeraddr cat plan received =
        ⟨["ERROR C0\n".toList], cat, Control.ready⟩) ∧
    ((handle peeraddr cat plan received).ctl = Control.quit ↔ line = "QUIT".toList) ∧
    (line.take 4 = "LIST".toList → line ≠ "LIST".toList →
      handle peeraddr cat plan received =
        ⟨["ERROR C0\n".toList], cat, Control.ready⟩) ∧
    (line.take 4 = "QUIT".toList → line ≠ "QUIT".toList →
      handle peeraddr cat plan received =
        ⟨["ERROR C0\n".toList], cat, Control.ready⟩) := by
  subst hl
  have hother : (clean_string (recv_msg received).2).take 3 ≠ "ADD".toList →
      (clean_string (recv_msg received).2).take 6 ≠ "DELETE".toList →
      (clean_string (recv_msg received).2).take 7 ≠ "REQUEST".toList →
      clean_string (recv_msg received).2 ≠ "LIST".toList →
      clean_string (recv_msg received).2 ≠ "QUIT".toList →
      handle peeraddr cat plan received =
        ⟨["ERROR C0\n".toList], cat, Control.ready⟩ := by
    intro h3 h6 h7 hlist hquit
    simp only [handle, h3, h6, h7, hlist, hquit, if_false]
  have hpre : ∀ w : List Char, w.length = 4 →
      (clean_string (recv_msg received).2).take 4 = w →
      w.take 3 ≠ "ADD".toList → w ≠ "DELE".toList → w ≠ "REQU".toList →
      (clean_string (recv_msg received).2).take 3 ≠ "ADD".toList ∧
      (clean_string (recv_msg received).2).take 6 ≠ "DELETE".toList ∧
      (clean_string (recv_msg received).2).take 7 ≠ "REQUEST".toList := by
    intro w _ hw ha hd hr
    refine ⟨fun h => ha ?_, fun h => hd ?_, fun h => hr ?_⟩
    · rw [← hw, List.take_take]
      exact h
    · have := congrArg (List.take 4) h
      rw [List.take_take] at this
      rw [← hw]
      exact this
    · have := congrArg (List.take 4) h
      rw [List.take_take] at this
      rw [← hw]
      exact this
  refine ⟨hother, ⟨fun hq => ?_, fun hq => ?_⟩, fun h4 hne => ?_, fun h4 hne => ?_⟩
  · by_contra hne
    revert hq
    unfold handle
    simp only []
    repeat' split
    all_goals (intro hq; exact Control.noConfusion hq)
  · have h3 : ¬ ("QUIT".toList.take 3 = "ADD".toList) := by decide
    have h6 : ¬ ("QUIT".toList.take 6 = "DELETE".toList) := by decide
    have hl : ¬ ("QUIT".toList = "LIST".toList) := by decide
    simp only [handle, hq, h3, h6, hl, if_true, if_false]
  · obtain ⟨h3, h6, h7⟩ := hpre "LIST".toList rfl h4 (by decide) (by decide) (by decide)
    refine hother h3 h6 h7 hne (fun hq => ?_)
    rw [hq] at h4
    revert h4
    decide
  · obtain ⟨h3, h6, h7⟩ := hpre "QUIT".toList rfl h4 (by decide) (by decide) (by decide)
    refine hother h3 h6 h7 (fun hq => ?_) hne
    rw [hq] at h4
    revert h4
    decide

/-- Claim C13 at a repeated `CONNECT`, at `LIST all`, at `QUIT now`, at the
lower-case verb `list` and at the lower-case `quit`: each is answered with
`ERROR C0` and the session stays in READY with its table. -/
theorem unknown_command_error_c0_witness :
    handle "10.0.0.1".toList [⟨"a".toList, "h".toList, 1, "10.0.0.1".toList⟩] none
        "CONNECT\n".toList =
      ⟨["ERROR C0\n".toList], [⟨"a".toList, "h".toList, 1, "10.0.0.1".toList⟩],
        Control.ready⟩ ∧
    handle "10.0.0.1".toList [⟨"a".toList, "h".toList, 1, "10.0.0.1".toList⟩] none
        "LIST all\n".toList =
      ⟨["ERROR C0\n".toList], [⟨"a".toList, "h".toList, 1, "10.0.0.1".toList⟩],
        Control.ready⟩ ∧
    handle "10.0.0.1".toList [⟨"a".toList, "h".toList, 1, "10.0.0.1".toList⟩] none
        "QUIT now\n".toList =
      ⟨["ERROR C0\n".toList], [⟨"a".toList, "h".toList, 1, "10.0.0.1".toList⟩],
        Control.ready⟩ ∧
    handle "10.0.0.1".toList [⟨"a".toList, "h".toList, 1, "10.0.0.1".toList⟩] none
        "list\n".toList =
      ⟨["ERROR C0\n".toList], [⟨"a".toList, "h".toList, 1, "10.0.0.1".toList⟩],
        Control.ready⟩ ∧
    handle "10.0.0.1".toList [⟨"a".toList, "h".toList, 1, "10.0.0.1".toList⟩] none
        "quit\n".toList =
      ⟨["ERROR C0\n".toList], [⟨"a".toList, "h".toList, 1, "10.0.0.1".toList⟩],
        Control.ready⟩ :=
  ⟨(unknown_command_error_c0 "10.0.0.1".toList _ none "CONNECT\n".toList
      "CONNECT".toList (by decide)).1 (by decide) (by decide) (by decide) (by decide)
      (by decide),
   (unknown_command_error_c0 "10.0.0.1".toList _ none "LIST all\n".toList
      "LIST all".toList (by decide)).2.2.1 (by decide) (by decide),
   (unknown_command_error_c0 "10.0.0.1".toList _ none "QUIT now\n".toList
      "QUIT now".toList (by decide)).2.2.2 (by decide) (by decide),
   (unknown_command_error_c0 "10.0.0.1".toList _ none "list\n".toList
      "list".toList (by decide)).1 (by decide) (by decide) (by decide) (by decide)
      (by decide),
   (unknown_command_error_c0 "10.0.0.1".toList _ none "quit\n".toList
      "quit".toList (by decide)).1 (by decide) (by decide) (by decide) (by decide)
      (by decide)⟩

/-! ## The handshake -/

/-- Messages that are neither CONNECT nor QUIT are consumed by the handshake
loop without any reply: the loop goes on with the rest of the script, its
buffer holding again a text that is neither word. -/
theorem handshake_skip (noise : List Event) (line : List Char)
    (h0 : line ≠ "CONNECT".toList ∧ line ≠ "QUIT".toList)
    (hn : ∀ n ∈ noise, clean_string (recv_msg n.received).2 ≠ "CONNECT".toList ∧
      clean_string (recv_msg n.received).2 ≠ "QUIT".toList) :
    ∃ l : List Char, (l ≠ "CONNECT".toList ∧ l ≠ "QUIT".toList) ∧
      ∀ tail : List Event, handshake line (noise ++ tail) = handshake l tail := by
  induction noise generalizing line with
  | nil => exact ⟨line, h0, fun tail => rfl⟩
  | cons n noise ih =>
    have hn1 := hn n (List.mem_cons_self n noise)
    obtain ⟨l, hl, hrest⟩ := ih (clean_string (recv_msg n.received).2) hn1
      (fun m hm => hn m (List.mem_cons_of_mem n hm))
    refine ⟨l, hl, fun tail => ?_⟩
    have hcond : ¬ (line = "CONNECT".toList ∨ line = "QUIT".toList) := by
      intro h
      rcases h with h | h
      · exact h0.1 h
      · exact h0.2 h
    rw [List.cons_append, handshake, if_neg hcond]
    simp only [hn1.1, if_false, List.nil_append, hrest tail]

/-- The handshake gate for a buffer `in` that holds neither CONNECT nor QUIT
at entry (the program does not initialise it).  For every
script of messages none of which is CONNECT or QUIT after cleaning, whatever
their content: after them the session has sent the banner and nothing else,
the table is unchanged and the session still waits for the handshake.  When
the next message is CONNECT, it is answered with exactly `HELLO` and the
messages after it are served by the command loop; when the next message is
QUIT, the session goes to the teardown: it sends the banner and `GOODBYE`
only, no `HELLO`. -/
theorem handshake_gate (peeraddr in0 : List Char) (cat : Catalog)
    (noise : List Event) (e : Event) (rest : List Event)
    (h0 : in0 ≠ "CONNECT".toList ∧ in0 ≠ "QUIT".toList)
    (hn : ∀ n ∈ noise, clean_string (recv_msg n.received).2 ≠ "CONNECT".toList ∧
      clean_string (recv_msg n.received).2 ≠ "QUIT".toList) :
    session_loops peeraddr in0 cat noise = ⟨[banner], cat, Exit.waiting⟩ ∧
    (clean_string (recv_msg e.received).2 = "CONNECT".toList →
      session_loops peeraddr in0 cat (noise ++ e :: rest) =
        ⟨banner :: "HELLO\n".toList :: (command_loop peeraddr cat rest).out,
          (command_loop peeraddr cat rest).cat,
          (command_loop peeraddr cat rest).exit⟩) ∧
    (clean_string (recv_msg e.received).2 = "QUIT".toList →
      session_loops peeraddr in0 cat (noise ++ e :: rest) =
        ⟨[banner], cat, Exit.quit⟩ ∧
      ∀ (c_count : Int) (purge : Option FaultPlan) (close_rc : Int),
        (p2p peeraddr c_count cat ⟨in0, noise ++ e :: rest, purge, close_rc⟩).out =
          [banner, "GOODBYE\n".toList]) := by
  obtain ⟨l, hl, hskip⟩ := handshake_skip noise in0 h0 hn
  have hcond : ¬ (l = "CONNECT".toList ∨ l = "QUIT".toList) := by
    intro h
    rcases h with h | h
    · exact hl.1 h
    · exact hl.2 h
  have hwait : handshake in0 noise = ⟨[], none, []⟩ := by
    have := hskip []
    rw [List.append_nil] at this
    rw [this]
    simp only [handshake, hcond, if_false]
  have hconn : clean_string (recv_msg e.received).2 = "CONNECT".toList →
      handshake in0 (noise ++ e :: rest) =
        ⟨["HELLO\n".toList], some "CONNECT".toList, rest⟩ := by
    intro he
    rw [hskip (e :: rest)]
    rw [handshake, if_neg hcond]
    have hrec : handshake "CONNECT".toList rest = ⟨[], some "CONNECT".toList, rest⟩ := by
      cases rest <;> simp [handshake]
    simp only [he, if_true, hrec, List.append_nil]
  have hquit : clean_string (recv_msg e.received).2 = "QUIT".toList →
      handshake in0 (noise ++ e :: rest) = ⟨[], some "QUIT".toList, rest⟩ := by
    intro he
    rw [hskip (e :: rest)]
    have hne : ¬ ("QUIT".toList = "CONNECT".toList) := by decide
    rw [handshake, if_neg hcond]
    have hrec : handshake "QUIT".toList rest = ⟨[], some "QUIT".toList, rest⟩ := by
      cases rest <;> simp [handshake]
    simp only [he, hne, if_false, hrec, List.append_nil]
  refine ⟨?_, fun he => ?_, fun he => ?_⟩
  · simp only [session_loops, hwait]
  · have hne : ¬ ("CONNECT".toList = "QUIT".toList) := by decide
    simp only [session_loops, hconn he, hne, if_false, List.singleton_append]
  · have hs : session_loops peeraddr in0 cat (noise ++ e :: rest) =
        ⟨[banner], cat, Exit.quit⟩ := by
      simp only [session_loops, hquit he, if_true]
    refine ⟨hs, fun c_count purge close_rc => ?_⟩
    simp only [p2p, hs, disconnect]
    split_ifs <;> rfl


/-- The handshake gate on a session of peer 10.0.0.1, entered with an empty
buffer, that sends a well-formed ADD and
a LIST before the handshake: they change nothing and get no reply; the
`CONNECT` after them is answered with `HELLO`, and the `LIST` and `QUIT`
that follow are served, the table being still empty. -/
theorem handshake_gate_witness :
    session_loops "10.0.0.1".toList [] []
        [⟨"ADD song.mp3 abc123 4096\n".toList, none⟩, ⟨"LIST\n".toList, none⟩] =
      ⟨[banner], [], Exit.waiting⟩ ∧
    session_loops "10.0.0.1".toList [] []
        ([⟨"ADD song.mp3 abc123 4096\n".toList, none⟩, ⟨"LIST\n".toList, none⟩] ++
          ⟨"CONNECT\r\n".toList, none⟩ ::
          [⟨"LIST\n".toList, none⟩, ⟨"QUIT\n".toList, none⟩]) =
      ⟨[banner, "HELLO\n".toList, "OK\n".toList], [], Exit.quit⟩ :=
  ⟨(handshake_gate "10.0.0.1".toList [] []
      [⟨"ADD song.mp3 abc123 4096\n".toList, none⟩, ⟨"LIST\n".toList, none⟩]
      ⟨"CONNECT\r\n".toList, none⟩ [⟨"LIST\n".toList, none⟩, ⟨"QUIT\n".toList, none⟩]
      (by decide) (by decide)).1,
   (handshake_gate "10.0.0.1".toList [] []
      [⟨"ADD song.mp3 abc123 4096\n".toList, none⟩, ⟨"LIST\n".toList, none⟩]
      ⟨"CONNECT\r\n".toList, none⟩ [⟨"LIST\n".toList, none⟩, ⟨"QUIT\n".toList, none⟩]
      (by decide) (by decide)).2.1 (by decide)⟩

/-- Claim C11 fails on the code when the buffer `in` holds CONNECT or QUIT
at entry: `p2p` declares `in` and `out` in one declaration whose initialiser
clears `out` only, and the condition of the handshake loop reads `in` before
anything is received.  With CONNECT in the buffer the loop has no pass: a
well-formed ADD received first, before any CONNECT, is served by the command
loop, answered `OK` and stored, and no `HELLO` is ever sent; a CONNECT
received then is answered `ERROR C0`.  With QUIT in the buffer both loops
have no pass: the session sends the banner and `GOODBYE` and ends without
reading any message.  With an empty buffer the same ADD gets no reply and
changes nothing, as the claim says. -/
theorem stale_buffer_skips_handshake :
    session_loops "10.0.0.1".toList "CONNECT".toList []
        [⟨"ADD song.mp3 abc123 4096\n".toList, none⟩] =
      ⟨[banner, "OK\n".toList],
        [⟨"song.mp3".toList, "abc123".toList, 4096, "10.0.0.1".toList⟩],
        Exit.waiting⟩ ∧
    session_loops "10.0.0.1".toList "CONNECT".toList []
        [⟨"ADD song.mp3 abc123 4096\n".toList, none⟩, ⟨"CONNECT\n".toList, none⟩] =
      ⟨[banner, "OK\n".toList, "ERROR C0\n".toList],
        [⟨"song.mp3".toList, "abc123".toList, 4096, "10.0.0.1".toList⟩],
        Exit.waiting⟩ ∧
    p2p "10.0.0.1".toList 1 []
        ⟨"QUIT".toList,
          [⟨"CONNECT\n".toList, none⟩, ⟨"ADD song.mp3 abc123 4096\n".toList, none⟩],
          none, 0⟩ =
      ⟨[banner, "GOODBYE\n".toList], [], 0, true, some 0⟩ ∧
    session_loops "10.0.0.1".toList [] []
        [⟨"ADD song.mp3 abc123 4096\n".toList, none⟩] =
      ⟨[banner], [], Exit.waiting⟩ := by
  decide

/-! ## Shape of the output of one command -/

theorem toDigitsCore_chars (fuel n : Nat) (ds : List Char)
    (hds : ∀ c ∈ ds, 48 ≤ c.toNat ∧ c.toNat ≤ 57) :
    ∀ c ∈ Nat.toDigitsCore 10 fuel n ds, 48 ≤ c.toNat ∧ c.toNat ≤ 57 := by
  induction fuel generalizing n ds with
  | zero => simpa [Nat.toDigitsCore] using hds
  | succ f ih =>
    have hd : 48 ≤ (Nat.digitChar (n % 10)).toNat ∧
        (Nat.digitChar (n % 10)).toNat ≤ 57 := by
      have h10 : n % 10 < 10 := Nat.mod_lt _ (by decide)
      generalize n % 10 = d at h10
      interval_cases d <;> decide
    have hcons : ∀ c ∈ Nat.digitChar (n % 10) :: ds, 48 ≤ c.toNat ∧ c.toNat ≤ 57 := by
      intro c hc
      rcases List.mem_cons.mp hc with h | h
      · rw [h]
        exact hd
      · exact hds c h
    simp only [Nat.toDigitsCore]
    split_ifs
    · exact hcons
    · exact ih _ _ hcons

/-- The decimal text of an integer is made of digits and the minus sign. -/
theorem toString_int_chars (n : Int) :
    ∀ c ∈ (toString n).toList, (48 ≤ c.toNat ∧ c.toNat ≤ 57) ∨ c = '-' := by
  have hnat : ∀ m : Nat, ∀ c ∈ (toString m).toList, 48 ≤ c.toNat ∧ c.toNat ≤ 57 := by
    intro m c hc
    have : (toString m).toList = Nat.toDigits 10 m := rfl
    rw [this] at hc
    exact toDigitsCore_chars _ _ [] (by simp) c hc
  intro c hc
  cases n with
  | ofNat m => exact Or.inl (hnat m c hc)
  | negSucc m =>
    have : (toString (Int.negSucc m)).toList = '-' :: (toString (m + 1)).toList := rfl
    rw [this] at hc
    rcases List.mem_cons.mp hc with h | h
    · exact Or.inr h
    · exact Or.inl (hnat _ c h)

theorem takeWhile_append_stop (p : Char → Bool) (a b : List Char) (x : Char)
    (ha : ∀ c ∈ a, p c = true) (hx : p x = false) :
    (a ++ x :: b).takeWhile p = a := by
  induction a with
  | nil => simp [List.takeWhile_cons, hx]
  | cons c cs ih =>
    have hc := ha c (List.mem_cons_self c cs)
    simp only [List.cons_append, List.takeWhile_cons, hc, if_true]
    rw [ih (fun d hd => ha d (List.mem_cons_of_mem c hd))]

/-- The last field of a data line is the decimal text of its integer. -/
theorem lastField_fmt_row (text : List Char) (n : Int) :
    lastField (fmt_row text n) = (toString n).toList := by
  have h1 : fmt_row text n = (text ++ ' ' :: (toString n).toList) ++ ['\n'] := by
    simp [fmt_row]
  unfold lastField
  rw [h1, List.dropLast_concat, List.reverse_append, List.reverse_cons, List.append_assoc,
    List.singleton_append,
    takeWhile_append_stop _ _ _ ' ' (fun c hc => ?_) (by decide), List.reverse_reverse]
  have hc1 := toString_int_chars n c (List.mem_reverse.mp hc)
  rcases hc1 with h | h
  · have : c ≠ ' ' := by
      intro hc2
      rw [hc2] at h
      revert h
      decide
    simpa using this
  · rw [h]
    decide

/-- A data line is never a terminator line. -/
theorem dataLine_not_terminator {l : List Char} (hd : isDataLine l) : l ∉ terminators := by
  obtain ⟨text, n, rfl⟩ := hd
  intro hmem
  have hkey : ∀ e ∈ terminators, ∃ c ∈ lastField e,
      ¬ ((48 ≤ c.toNat ∧ c.toNat ≤ 57) ∨ c = '-') := by
    decide
  obtain ⟨c, hc, hno⟩ := hkey _ hmem
  rw [lastField_fmt_row] at hc
  exact hno (toString_int_chars n c hc)

/-- The lines sent by the loop over a SELECT statement: data lines only when
it ends with `SQLITE_DONE` or never ends, data lines and then the error line
when it is left on `SQLITE_ERROR`. -/
theorem select_loop_shape (errLine : List Char) (plan : Option FaultPlan) (i : Nat)
    (rows : List (List Char × Int)) :
    ((select_loop errLine plan i rows).2 = LoopEnd.done →
      ∀ l ∈ (select_loop errLine plan i rows).1, isDataLine l) ∧
    ((select_loop errLine plan i rows).2 = LoopEnd.error →
      ∃ data, (select_loop errLine plan i rows).1 = data ++ [errLine] ∧
        ∀ l ∈ data, isDataLine l) ∧
    ((select_loop errLine plan i rows).2 = LoopEnd.hang →
      ∀ l ∈ (select_loop errLine plan i rows).1, isDataLine l) := by
  induction rows generalizing i with
  | nil =>
    simp only [select_loop]
    split
    · exact ⟨fun h => LoopEnd.noConfusion h, fun _ => ⟨[], rfl, by simp⟩,
        fun h => LoopEnd.noConfusion h⟩
    · exact ⟨fun h => LoopEnd.noConfusion h, fun h => LoopEnd.noConfusion h, by simp⟩
    · exact ⟨by simp, fun h => LoopEnd.noConfusion h, fun h => LoopEnd.noConfusion h⟩
  | cons r rows ih =>
    simp only [select_loop]
    split
    · exact ⟨fun h => LoopEnd.noConfusion h, fun _ => ⟨[], rfl, by simp⟩,
        fun h => LoopEnd.noConfusion h⟩
    · exact ⟨fun h => LoopEnd.noConfusion h, fun h => LoopEnd.noConfusion h, by simp⟩
    · obtain ⟨h1, h2, h3⟩ := ih (i + 1)
      have hr : isDataLine (fmt_row r.1 (wrap32 r.2)) := ⟨_, _, rfl⟩
      refine ⟨fun h l hl => ?_, fun h => ?_, fun h l hl => ?_⟩
      · rcases List.mem_cons.mp hl with hl | hl
        · rw [hl]
          exact hr
        · exact h1 h l hl
      · obtain ⟨data, hdata, hall⟩ := h2 h
        refine ⟨fmt_row r.1 (wrap32 r.2) :: data, by rw [hdata]; rfl, fun l hl => ?_⟩
        rcases List.mem_cons.mp hl with hl | hl
        · rw [hl]
          exact hr
        · exact hall l hl
      · rcases List.mem_cons.mp hl with hl | hl
        · rw [hl]
          exact hr
        · exact h3 h l hl


theorem sqlite_insert_cat_of_ne_done (cat : Catalog) (plan : Option FaultPlan)
    (filename filehash : List Char) (f_size : Int) (peeraddr : List Char)
    (h : (sqlite_insert cat plan filename filehash f_size peeraddr).1 ≠ Status.SQLITE_DONE) :
    (sqlite_insert cat plan filename filehash f_size peeraddr).2 = cat := by
  revert h
  unfold sqlite_insert
  split
  · split
    · intro _
      rfl
    · split_ifs with hany
      · intro _
        rfl
      · intro h
        exact absurd rfl h
  · intro _
    rfl

theorem sqlite_delete_cat_of_ne_done (cat : Catalog) (plan : Option FaultPlan)
    (filename filehash peeraddr : List Char)
    (h : (sqlite_delete cat plan filename filehash peeraddr).1 ≠ Status.SQLITE_DONE) :
    (sqlite_delete cat plan filename filehash peeraddr).2 = cat := by
  revert h
  unfold sqlite_delete
  split
  · split
    · intro _
      rfl
    · intro h
      exact absurd rfl h
  · intro _
    rfl

/-- The four ways one pass of the command loop can end, with the lines it
sends: a pass that stays in READY sends data lines and then one terminator,
which is `OK` or else an error that changes nothing; a pass that leaves
the loop on a store failure sends data lines and then one of `ERROR A0`,
`ERROR D0`, `ERROR L0`, `ERROR R0`; the pass of QUIT sends nothing; a pass
that never ends sends data lines only. -/
theorem handle_shape (peeraddr : List Char) (cat : Catalog) (plan : Option FaultPlan)
    (received : List Char) :
    ((handle peeraddr cat plan received).ctl = Control.ready ∧
      ∃ data t, (handle peeraddr cat plan received).out = data ++ [t] ∧
        (∀ l ∈ data, isDataLine l) ∧
        (t = "OK\n".toList ∨
          (t ∈ "ERROR C0\n".toList :: validationErrors ∧ data = [] ∧
            (handle peeraddr cat plan received).cat = cat))) ∨
    ((handle peeraddr cat plan received).ctl = Control.fatal ∧
      ∃ data t, (handle peeraddr cat plan received).out = data ++ [t] ∧
        (∀ l ∈ data, isDataLine l) ∧ t ∈ fatalErrors ∧
        (handle peeraddr cat plan received).cat = cat) ∨
    ((handle peeraddr cat plan received).ctl = Control.quit ∧
      (handle peeraddr cat plan received).out = [] ∧
      (handle peeraddr cat plan received).cat = cat) ∨
    ((handle peeraddr cat plan received).ctl = Control.hang ∧
      (∀ l ∈ (handle peeraddr cat plan received).out, isDataLine l) ∧
      (handle peeraddr cat plan received).cat = cat) := by
  unfold handle
  simp only []
  repeat' split
  all_goals first
    | exact Or.inl ⟨rfl, [], _, rfl, fun l hl => absurd hl (List.not_mem_nil l),
        Or.inr ⟨by decide, rfl, rfl⟩⟩
    | exact Or.inl ⟨rfl, [], _, rfl, fun l hl => absurd hl (List.not_mem_nil l),
        Or.inl rfl⟩
    | exact Or.inr (Or.inr (Or.inl ⟨rfl, rfl, rfl⟩))
    | exact Or.inr (Or.inr (Or.inr
        ⟨rfl, fun l hl => absurd hl (List.not_mem_nil l), rfl⟩))
    | (refine Or.inl ⟨rfl, [], _, rfl, fun l hl => absurd hl (List.not_mem_nil l),
        Or.inr ⟨by decide, rfl, ?_⟩⟩
       apply sqlite_insert_cat_of_ne_done
       simp_all)
    | (refine Or.inr (Or.inl ⟨rfl, [], _, rfl,
        fun l hl => absurd hl (List.not_mem_nil l), by decide, ?_⟩)
       first
         | (apply sqlite_insert_cat_of_ne_done
            assumption)
         | (apply sqlite_delete_cat_of_ne_done
            assumption))
    | (refine Or.inl ⟨rfl, _, _, rfl, ?_, Or.inl rfl⟩
       exact (select_loop_shape _ _ _ _).1 (by assumption))
    | (refine Or.inr (Or.inr (Or.inr ⟨rfl, ?_, rfl⟩))
       exact (select_loop_shape _ _ _ _).2.2 (by assumption))
    | (refine Or.inr (Or.inl ⟨rfl, ?_⟩)
       obtain ⟨data, hd, hall⟩ := (select_loop_shape _ _ _ _).2.1 (by assumption)
       exact ⟨data, _, hd, hall, by decide, rfl⟩)


/-! ## Validation and duplicate errors -/

/-- Claim C14: whatever the table, the store and the line, a pass of the
command loop that is answered with exactly one of `ERROR A1`, `A2`, `A3`,
`A4`, `D1`, `D2`, `R1` leaves the table as it was and stays in READY; so
the same message received any number of times in a row is answered with the
same error each time, the table still unchanged and the session still in
the command loop. -/
theorem error_reply_keeps_state (peeraddr : List Char) (cat : Catalog)
    (plan : Option FaultPlan) (received code : List Char)
    (hcode : code ∈ validationErrors)
    (hout : (handle peeraddr cat plan received).out = [code]) :
    (handle peeraddr cat plan received).cat = cat ∧
    (handle peeraddr cat plan received).ctl = Control.ready ∧
    ∀ n : Nat, command_loop peeraddr cat (List.replicate n ⟨received, plan⟩) =
      ⟨List.replicate n code, cat, Exit.waiting⟩ := by
  have hterm : code ∈ terminators := by
    simp only [terminators, List.mem_cons, List.mem_append]
    exact Or.inr (Or.inr (Or.inl hcode))
  have hnotok : code ≠ "OK\n".toList := by
    intro h
    rw [h] at hcode
    revert hcode
    decide
  have hnotfatal : code ∉ fatalErrors := by
    intro h
    have : ∀ c ∈ validationErrors, c ∉ fatalErrors := by decide
    exact this code hcode h
  have hstep : (handle peeraddr cat plan received).cat = cat ∧
      (handle peeraddr cat plan received).ctl = Control.ready := by
    rcases handle_shape peeraddr cat plan received with
      ⟨hctl, data, t, ho, _, ht⟩ | ⟨_, data, t, ho, _, ht, _⟩ | ⟨_, ho, _⟩ | ⟨_, hd, _⟩
    · rw [hout] at ho
      rcases ht with ht | ⟨_, _, hcat⟩
      · exfalso
        have hlast := congrArg List.getLast? ho
        simp at hlast
        exact hnotok (hlast.trans ht)
      · exact ⟨hcat, hctl⟩
    · exfalso
      rw [hout] at ho
      have hlast := congrArg List.getLast? ho
      simp at hlast
      exact hnotfatal (hlast ▸ ht)
    · rw [hout] at ho
      exact absurd ho (by simp)
    · exfalso
      rw [hout] at hd
      exact dataLine_not_terminator (hd code (List.mem_singleton_self code)) hterm
  refine ⟨hstep.1, hstep.2, fun n => ?_⟩
  induction n with
  | zero => rfl
  | succ n ih =>
    have hs : handle peeraddr cat plan received =
        ⟨[code], cat, Control.ready⟩ := by
      have h1 := hout
      have h2 := hstep.1
      have h3 := hstep.2
      cases hh : handle peeraddr cat plan received
      rw [hh] at h1 h2 h3
      simp only at h1 h2 h3
      rw [h1, h2, h3]
    simp only [List.replicate_succ, command_loop, hs, ih]
    rfl

/-- Claim C14 on the line `ADD f h notanumber` and on a duplicate ADD: the
reply is `ERROR A3`, respectively `ERROR A4`, the table is the one before,
and three such messages in a row get three times the same reply. -/
theorem error_reply_keeps_state_witness :
    (handle "10.0.0.1".toList [⟨"f".toList, "h".toList, 1, "10.0.0.1".toList⟩] none
        "ADD f h notanumber\n".toList).cat =
      [⟨"f".toList, "h".toList, 1, "10.0.0.1".toList⟩] ∧
    command_loop "10.0.0.1".toList [⟨"f".toList, "h".toList, 1, "10.0.0.1".toList⟩]
        (List.replicate 3 ⟨"ADD f h 1\n".toList, none⟩) =
      ⟨List.replicate 3 "ERROR A4\n".toList,
        [⟨"f".toList, "h".toList, 1, "10.0.0.1".toList⟩], Exit.waiting⟩ :=
  ⟨(error_reply_keeps_state "10.0.0.1".toList
      [⟨"f".toList, "h".toList, 1, "10.0.0.1".toList⟩] none
      "ADD f h notanumber\n".toList "ERROR A3\n".toList (by decide) (by decide)).1,
   (error_reply_keeps_state "10.0.0.1".toList
      [⟨"f".toList, "h".toList, 1, "10.0.0.1".toList⟩] none
      "ADD f h 1\n".toList "ERROR A4\n".toList (by decide) (by decide)).2.2 3⟩


/-! ## Store failures during a command -/

/-- With a store failure at its step call, a well-formed ADD is answered
`ERROR A0` and the command loop is left, the table unchanged. -/
theorem add_store_failure (peeraddr : List Char) (cat : Catalog) (pl : FaultPlan)
    (received f h s : List Char) (f1 h1 p1 : List Char)
    (hl : clean_string (recv_msg received).2 = addLine f h s)
    (hf : isToken f = true) (hh : isToken h = true) (hs : isDigits s = true)
    (qf : sqlText f = some f1) (qh : sqlText h = some h1)
    (qp : sqlText peeraddr = some p1) (hpl : pl.step = 0) :
    handle peeraddr cat (some pl) received =
      ⟨["ERROR A0\n".toList], cat, Control.fatal⟩ := by
  have hv : (clean_string (recv_msg received).2).take 3 = "ADD".toList := by
    rw [hl]
    rfl
  rw [handle_add peeraddr cat (some pl) received hv, hl,
    tokens_addLine hf hh (isDigits_isToken hs)]
  simp only [List.tail_cons, isDigits_validate hs, if_true, sqlite_insert, qf, qh, qp,
    failsAt, hpl, le_refl]
  cases pl.fault <;> rfl

/-- With a store failure at its step call, a well-formed DELETE is answered
`ERROR D0` and the command loop is left, the table unchanged. -/
theorem delete_store_failure (peeraddr : List Char) (cat : Catalog) (pl : FaultPlan)
    (received f h : List Char) (f1 h1 p1 : List Char)
    (hl : clean_string (recv_msg received).2 = deleteLine f h)
    (hf : isToken f = true) (hh : isToken h = true)
    (qf : sqlText f = some f1) (qh : sqlText h = some h1)
    (qp : sqlText peeraddr = some p1) (hpl : pl.step = 0) :
    handle peeraddr cat (some pl) received =
      ⟨["ERROR D0\n".toList], cat, Control.fatal⟩ := by
  have hv : (clean_string (recv_msg received).2).take 6 = "DELETE".toList := by
    rw [hl]
    rfl
  rw [handle_delete peeraddr cat (some pl) received hv, hl, tokens_deleteLine hf hh]
  simp only [List.tail_cons, sqlite_delete, qf, qh, qp, failsAt, hpl, le_refl]
  cases pl.fault <;> rfl

/-- A pass that leaves the command loop on a store failure ends the loop:
the events after it are not served, and `p2p` goes on with GOODBYE. -/
theorem fatal_pass_ends_loop (peeraddr : List Char) (cat : Catalog) (e : Event)
    (rest : List Event)
    (hf : (handle peeraddr cat e.plan e.received).ctl = Control.fatal) :
    command_loop peeraddr cat (e :: rest) =
      ⟨(handle peeraddr cat e.plan e.received).out,
        (handle peeraddr cat e.plan e.received).cat, Exit.fatal⟩ := by
  simp only [command_loop, hf]

/-- Claim C12 on the session `CONNECT`, `LIST` of peer 10.0.0.1 where
`sqlite3_step` fails in LIST with a code other than `SQLITE_ERROR`
(`SQLITE_BUSY`, say): no `ERROR L0` is sent, the loop over the statement is
not left, and the session does not reach the teardown (no GOODBYE, the
thread has not returned).  With the code `SQLITE_ERROR` the same session
sends `ERROR L0` and GOODBYE, and with either code an ADD sends `ERROR A0`
and GOODBYE. -/
theorem list_failure_code_not_reported :
    p2p "10.0.0.1".toList 1 [⟨"a".toList, "h".toList, 1, "10.0.0.2".toList⟩]
        ⟨[], [⟨"CONNECT\n".toList, none⟩, ⟨"LIST\n".toList, some ⟨0, Fault.other⟩⟩],
          none, 0⟩ =
      ⟨[banner, "HELLO\n".toList], [⟨"a".toList, "h".toList, 1, "10.0.0.2".toList⟩], 1,
        false, none⟩ ∧
    (p2p "10.0.0.1".toList 1 [⟨"a".toList, "h".toList, 1, "10.0.0.2".toList⟩]
        ⟨[], [⟨"CONNECT\n".toList, none⟩, ⟨"LIST\n".toList, some ⟨0, Fault.error⟩⟩],
          none, 0⟩).out =
      [banner, "HELLO\n".toList, "ERROR L0\n".toList, "GOODBYE\n".toList] ∧
    (p2p "10.0.0.1".toList 1 [⟨"a".toList, "h".toList, 1, "10.0.0.2".toList⟩]
        ⟨[], [⟨"CONNECT\n".toList, none⟩,
              ⟨"ADD f h 1\n".toList, some ⟨0, Fault.other⟩⟩], none, 0⟩).out =
      [banner, "HELLO\n".toList, "ERROR A0\n".toList, "GOODBYE\n".toList] := by
  decide

/-! ## One terminator per command -/

/-- Claim C15 at the READY-state line REQUEST a'b (the token holds one
quote character), on any of the tables below and with no failure put into
the store: the statement built from the line is not valid SQL, every step
call fails with a code other than `SQLITE_ERROR`, and the pass sends no
terminator line, neither `OK` nor `ERROR R0`, and never ends. -/
theorem request_unpaired_quote_no_terminator :
    handle "10.0.0.1".toList [] none "REQUEST a\x27b\n".toList =
      ⟨[], [], Control.hang⟩ ∧
    handle "10.0.0.1".toList [⟨"a".toList, "h".toList, 1, "10.0.0.2".toList⟩] none
        "REQUEST a\x27b\n".toList =
      ⟨[], [⟨"a".toList, "h".toList, 1, "10.0.0.2".toList⟩], Control.hang⟩ := by
  decide

/-- Every pass of the command loop that ends, other than the pass of QUIT,
sends data lines and then exactly one terminator line, `OK` or an `ERROR`
line of the code table; no data line is a terminator line. -/
theorem one_terminator_unless_hang (peeraddr : List Char) (cat : Catalog)
    (plan : Option FaultPlan) (received : List Char)
    (hq : (handle peeraddr cat plan received).ctl ≠ Control.quit)
    (hh : (handle peeraddr cat plan received).ctl ≠ Control.hang) :
    ∃ data t, (handle peeraddr cat plan received).out = data ++ [t] ∧
      t ∈ terminators ∧ ∀ l ∈ data, isDataLine l ∧ l ∉ terminators := by
  rcases handle_shape peeraddr cat plan received with
    ⟨_, data, t, ho, hd, ht⟩ | ⟨_, data, t, ho, hd, ht, _⟩ | ⟨hc, _, _⟩ | ⟨hc, _, _⟩
  · refine ⟨data, t, ho, ?_, fun l hl => ⟨hd l hl, dataLine_not_terminator (hd l hl)⟩⟩
    rcases ht with ht | ⟨ht, _, _⟩
    · rw [ht]
      decide
    · simp only [terminators, List.mem_cons, List.mem_append]
      rcases List.mem_cons.mp ht with h | h
      · exact Or.inr (Or.inl h)
      · exact Or.inr (Or.inr (Or.inl h))
  · refine ⟨data, t, ho, ?_, fun l hl => ⟨hd l hl, dataLine_not_terminator (hd l hl)⟩⟩
    simp only [terminators, List.mem_cons, List.mem_append]
    exact Or.inr (Or.inr (Or.inr ht))
  · exact absurd hc hq
  · exact absurd hc hh

/-- With the store working and a token without unpaired quote character, no
pass of the command loop hangs. -/
theorem no_hang_store_working (peeraddr : List Char) (cat : Catalog)
    (received : List Char)
    (hq : ∀ t ∈ tokens (clean_string (recv_msg received).2), sqlText t ≠ none) :
    (handle peeraddr cat none received).ctl ≠ Control.hang := by
  by_cases h7 : (clean_string (recv_msg received).2).take 7 = "REQUEST".toList
  · rw [handle_request peeraddr cat none received h7]
    rcases htk : tokens (clean_string (recv_msg received).2) with _ | ⟨v, _ | ⟨f, r⟩⟩
    · simp
    · simp
    · have hf := hq f (by rw [htk]; simp)
      cases hs : sqlText f with
      | none => exact absurd hs hf
      | some f1 => simp [select_loop_none, hs]
  · unfold handle
    simp only [select_loop_none, h7, if_false]
    repeat' split
    all_goals (intro hc; exact Control.noConfusion hc)


/-! ## Sizes -/

/-- For a digit token with value below 2^31 the size kept by `atoi` is the
decimal value of the token, and it is the value read back by
`sqlite3_column_int` when the row is listed. -/
theorem atoi_small {s : List Char} (hs : isDigits s = true)
    (hv : digitsValue s < 2 ^ 31) :
    atoi s = (digitsValue s : Int) ∧ wrap32 (atoi s) = (digitsValue s : Int) := by
  have hall : ∀ c ∈ s, isdigit c = true := by
    simp only [isDigits, Bool.and_eq_true, decide_eq_true_eq, List.all_eq_true] at hs
    exact hs.2
  have hmin : min (digitsValue s) (2 ^ 63 - 1) = digitsValue s := by
    apply Nat.min_eq_left
    have : (2 : Nat) ^ 31 ≤ 2 ^ 63 - 1 := by norm_num
    omega
  have hw : wrap32 (digitsValue s : Int) = (digitsValue s : Int) := by
    unfold wrap32
    have h1 : (digitsValue s : Int) < 2 ^ 31 := by exact_mod_cast hv
    have h0 : (0 : Int) ≤ (digitsValue s : Int) := Int.natCast_nonneg _
    norm_num at h1 ⊢
    omega
  have ha : atoi s = (digitsValue s : Int) := by
    unfold atoi
    rw [takeWhile_eq_self hall, hmin, hw]
  exact ⟨ha, by rw [ha, hw]⟩

/-- Claim C18 at the size tokens 4294967296 (2^32) and 2147483648 (2^31),
both below 2^63, sent by peer 10.0.0.1 on the empty table: each ADD is
answered `OK`, but the size stored is 0, respectively -2147483648, and LIST
prints `big.iso 0`, respectively `big.iso -2147483648`; the size token
2147483647 is stored and printed as it is. -/
theorem large_size_wraps_to_32_bits :
    handle "10.0.0.1".toList [] none "ADD big.iso abc 4294967296\n".toList =
      ⟨["OK\n".toList], [⟨"big.iso".toList, "abc".toList, 0, "10.0.0.1".toList⟩],
        Control.ready⟩ ∧
    (handle "10.0.0.1".toList
        (handle "10.0.0.1".toList [] none "ADD big.iso abc 4294967296\n".toList).cat none
        "LIST\n".toList).out = ["big.iso 0\n".toList, "OK\n".toList] ∧
    handle "10.0.0.1".toList [] none "ADD big.iso abc 2147483648\n".toList =
      ⟨["OK\n".toList],
        [⟨"big.iso".toList, "abc".toList, -2147483648, "10.0.0.1".toList⟩],
        Control.ready⟩ ∧
    (handle "10.0.0.1".toList
        (handle "10.0.0.1".toList [] none "ADD big.iso abc 2147483648\n".toList).cat none
        "REQUEST big.iso\n".toList).out =
      ["10.0.0.1 -2147483648\n".toList, "OK\n".toList] ∧
    (handle "10.0.0.1".toList
        (handle "10.0.0.1".toList [] none "ADD big.iso abc 2147483647\n".toList).cat none
        "LIST\n".toList).out = ["big.iso 2147483647\n".toList, "OK\n".toList] := by
  decide


/-! ## Admission -/

/-- The literal 0.80 as a double: twice `TP_UTIL` is the integer nearest to
4/5 of 2^53, so `TP_UTIL / 2^52` is the binary64 number nearest to 4/5. -/
theorem TP_UTIL_nearest :
    2 ^ 52 ≤ 2 * TP_UTIL ∧ 2 * TP_UTIL < 2 ^ 53 ∧
    5 * (2 * TP_UTIL) = 4 * 2 ^ 53 + 2 := by
  decide

theorem accept_one_pool (num_threads c_count : Int) (conn : Conn) :
    (accept_one num_threads c_count conn).pool = [conn] ∧
    (accept_one num_threads c_count conn).ret = none := by
  unfold accept_one
  simp only []
  split_ifs <;> exact ⟨rfl, rfl⟩

theorem tcp_listen_some (num_threads c_count : Int) (conn : Conn)
    (script : List (Option Conn)) :
    tcp_listen num_threads c_count (some conn :: script) =
      ⟨(accept_one num_threads c_count conn).log ++
          (tcp_listen num_threads (accept_one num_threads c_count conn).c_count script).log,
        (accept_one num_threads c_count conn).sent ++
          (tcp_listen num_threads (accept_one num_threads c_count conn).c_count script).sent,
        (tcp_listen num_threads (accept_one num_threads c_count conn).c_count script).c_count,
        (accept_one num_threads c_count conn).pool ++
          (tcp_listen num_threads (accept_one num_threads c_count conn).c_count script).pool,
        (tcp_listen num_threads (accept_one num_threads c_count conn).c_count script).ret⟩ :=
  rfl

/-- Claim C20 as stated fails: with the results of `accept` a connection, a
failure and a second connection, `tcp_listen` serves the first connection,
prints the failure and returns -1; the second connection is never accepted
nor handed to the pool. -/
theorem failed_accept_ends_listener :
    tcp_listen 64 0
        [some ⟨7, "10.0.0.1".toList⟩, none, some ⟨8, "10.0.0.2".toList⟩] =
      ⟨[Notice.connected "10.0.0.1".toList 7 1 64, Notice.acceptFailed], [], 1,
        [⟨7, "10.0.0.1".toList⟩], some (-1)⟩ := by
  decide

/-- Claim C20, amended: as long as `accept` succeeds the loop of
`tcp_listen` goes on, every connection being handed to the pool; at the
first failed `accept` the failure is printed and `tcp_listen` returns -1:
the loop is over, and whatever `accept` would have returned afterwards is
never served. -/
theorem accept_failure_stops_listener (num_threads c_count : Int) (oks : List Conn)
    (rest : List (Option Conn)) :
    (tcp_listen num_threads c_count (oks.map some)).ret = none ∧
    (tcp_listen num_threads c_count (oks.map some)).pool = oks ∧
    (tcp_listen num_threads c_count (oks.map some ++ none :: rest)).ret = some (-1) ∧
    (tcp_listen num_threads c_count (oks.map some ++ none :: rest)).pool = oks ∧
    (tcp_listen num_threads c_count (oks.map some ++ none :: rest)).log.getLast? =
      some Notice.acceptFailed ∧
    tcp_listen num_threads c_count (oks.map some ++ none :: rest) =
      tcp_listen num_threads c_count (oks.map some ++ [none]) := by
  induction oks generalizing c_count with
  | nil => simp [tcp_listen]
  | cons conn oks ih =>
    obtain ⟨h1, h2, h3, h4, h5, h6⟩ := ih (accept_one num_threads c_count conn).c_count
    have hp := accept_one_pool num_threads c_count conn
    rw [List.map_cons, List.cons_append, List.cons_append, tcp_listen_some, tcp_listen_some,
      tcp_listen_some, h6]
    refine ⟨h1, ?_, ?_, ?_, ?_, rfl⟩
    · simp only [hp.1, h2, List.singleton_append]
    · rw [← h6]
      exact h3
    · simp only [hp.1, List.singleton_append]
      rw [← h6, h4]
    · simp only []
      rw [← h6, List.getLast?_append, h5]
      rfl


/-! ## Verb prefixes and token splitting -/

/-- A text without blank is split into itself, or into nothing when it is
empty. -/
theorem tokens_no_blank {t : List Char} (h : ∀ c ∈ t, c ≠ ' ') :
    tokens t = if t = [] then [] else [t] := by
  unfold tokens List.splitOn
  rw [List.splitOnP_eq_single (fun c => c == ' ') t (fun c hc => by simpa using h c hc)]
  by_cases ht : t = [] <;> simp [List.filter_cons, ht]

/-- A blank after a text without blank ends its first token. -/
theorem tokens_first_blank {t : List Char} (h : ∀ c ∈ t, c ≠ ' ') (r : List Char) :
    tokens (t ++ ' ' :: r) = (if t = [] then [] else [t]) ++ tokens r := by
  unfold tokens List.splitOn
  rw [List.splitOnP_first (fun c => c == ' ') t (fun c hc => by simpa using h c hc) ' '
    (by simp) r]
  by_cases ht : t = [] <;> simp [List.filter_cons, ht]

/-- The tokens of two texts joined by a blank are the tokens of the first
followed by the tokens of the second. -/
theorem tokens_append_blank (a b : List Char) :
    tokens (a ++ ' ' :: b) = tokens a ++ tokens b := by
  have key : ∀ n : Nat, ∀ a : List Char, a.length = n →
      tokens (a ++ ' ' :: b) = tokens a ++ tokens b := by
    intro n
    induction n using Nat.strong_induction_on with
    | _ n ih =>
    intro a hn
    have hsplit := List.takeWhile_append_dropWhile (fun c => c != ' ') a
    have htake : ∀ c ∈ a.takeWhile (fun c => c != ' '), c ≠ ' ' := by
      intro c hc
      simpa using List.mem_takeWhile_imp hc
    cases hd : a.dropWhile (fun c => c != ' ') with
    | nil =>
      rw [hd, List.append_nil] at hsplit
      rw [hsplit] at htake
      rw [tokens_first_blank htake, tokens_no_blank htake]
    | cons x a2 =>
      have hx : x = ' ' := by
        have := List.head_dropWhile_not (fun c => c != ' ') a (by rw [hd]; simp)
        simp only [hd, List.head_cons] at this
        simpa using this
      subst hx
      rw [hd] at hsplit
      have hlen : a2.length < n := by
        rw [← hn, ← hsplit]
        simp
        omega
      have e1 : a ++ ' ' :: b =
          a.takeWhile (fun c => c != ' ') ++ ' ' :: (a2 ++ ' ' :: b) := by
        conv_lhs => rw [← hsplit]
        simp
      rw [e1, tokens_first_blank htake, ih a2.length hlen a2 rfl]
      conv_rhs => rw [← hsplit, tokens_first_blank htake]
      rw [List.append_assoc]
  exact key a.length a rfl


/-- An ADD line is handled according to the first three tokens after its
verb word only. -/
theorem handle_add_congr (peeraddr : List Char) (cat : Catalog) (plan : Option FaultPlan)
    (r1 r2 : List Char)
    (h1 : (clean_string (recv_msg r1).2).take 3 = "ADD".toList)
    (h2 : (clean_string (recv_msg r2).2).take 3 = "ADD".toList)
    (ht : (tokens (clean_string (recv_msg r1).2)).tail.take 3 =
      (tokens (clean_string (recv_msg r2).2)).tail.take 3) :
    handle peeraddr cat plan r1 = handle peeraddr cat plan r2 := by
  rw [handle_add peeraddr cat plan r1 h1, handle_add peeraddr cat plan r2 h2]
  generalize (tokens (clean_string (recv_msg r1).2)).tail = u1 at ht ⊢
  generalize (tokens (clean_string (recv_msg r2).2)).tail = u2 at ht ⊢
  rcases u1 with _ | ⟨a1, _ | ⟨b1, _ | ⟨c1, t1⟩⟩⟩ <;>
  rcases u2 with _ | ⟨a2, _ | ⟨b2, _ | ⟨c2, t2⟩⟩⟩ <;>
  simp_all

/-- A DELETE line is handled according to the first two tokens after its
verb word only. -/
theorem handle_delete_congr (peeraddr : List Char) (cat : Catalog)
    (plan : Option FaultPlan) (r1 r2 : List Char)
    (h1 : (clean_string (recv_msg r1).2).take 6 = "DELETE".toList)
    (h2 : (clean_string (recv_msg r2).2).take 6 = "DELETE".toList)
    (ht : (tokens (clean_string (recv_msg r1).2)).tail.take 2 =
      (tokens (clean_string (recv_msg r2).2)).tail.take 2) :
    handle peeraddr cat plan r1 = handle peeraddr cat plan r2 := by
  rw [handle_delete peeraddr cat plan r1 h1, handle_delete peeraddr cat plan r2 h2]
  generalize (tokens (clean_string (recv_msg r1).2)).tail = u1 at ht ⊢
  generalize (tokens (clean_string (recv_msg r2).2)).tail = u2 at ht ⊢
  rcases u1 with _ | ⟨a1, _ | ⟨b1, t1⟩⟩ <;>
  rcases u2 with _ | ⟨a2, _ | ⟨b2, t2⟩⟩ <;>
  simp_all

/-- A REQUEST line is handled according to the first token after its verb
word only. -/
theorem handle_request_congr (peeraddr : List Char) (cat : Catalog)
    (plan : Option FaultPlan) (r1 r2 : List Char)
    (h1 : (clean_string (recv_msg r1).2).take 7 = "REQUEST".toList)
    (h2 : (clean_string (recv_msg r2).2).take 7 = "REQUEST".toList)
    (ht : (tokens (clean_string (recv_msg r1).2)).tail.take 1 =
      (tokens (clean_string (recv_msg r2).2)).tail.take 1) :
    handle peeraddr cat plan r1 = handle peeraddr cat plan r2 := by
  rw [handle_request peeraddr cat plan r1 h1, handle_request peeraddr cat plan r2 h2]
  generalize (tokens (clean_string (recv_msg r1).2)).tail = u1 at ht ⊢
  generalize (tokens (clean_string (recv_msg r2).2)).tail = u2 at ht ⊢
  rcases u1 with _ | ⟨a1, t1⟩ <;>
  rcases u2 with _ | ⟨a2, t2⟩ <;>
  simp_all


/-- Claim C21: verb matching for ADD, DELETE and REQUEST is a test on the
first 3, 6 and 7 characters of the cleaned line, and the arguments are the
blank-separated tokens after the first one.  Two lines that both start with
ADD (both with DELETE, both with REQUEST) and have the same tokens after
their first token are handled alike, whatever the table and the store: a
line is handled as the command of its prefix, its first word counting as the
verb.  A line without blank has no argument and is answered `ERROR A1`,
`ERROR D1` or `ERROR R1`. -/
theorem verb_prefix_match (peeraddr : List Char) (cat : Catalog)
    (plan : Option FaultPlan) (r1 r2 l1 l2 : List Char)
    (h1 : clean_string (recv_msg r1).2 = l1) (h2 : clean_string (recv_msg r2).2 = l2) :
    (l1.take 3 = "ADD".toList → l2.take 3 = "ADD".toList →
      (tokens l1).tail = (tokens l2).tail →
      handle peeraddr cat plan r1 = handle peeraddr cat plan r2) ∧
    (l1.take 6 = "DELETE".toList → l2.take 6 = "DELETE".toList →
      (tokens l1).tail = (tokens l2).tail →
      handle peeraddr cat plan r1 = handle peeraddr cat plan r2) ∧
    (l1.take 7 = "REQUEST".toList → l2.take 7 = "REQUEST".toList →
      (tokens l1).tail = (tokens l2).tail →
      handle peeraddr cat plan r1 = handle peeraddr cat plan r2) ∧
    ((∀ c ∈ l1, c ≠ ' ') →
      (l1.take 3 = "ADD".toList →
        handle peeraddr cat plan r1 = ⟨["ERROR A1\n".toList], cat, Control.ready⟩) ∧
      (l1.take 6 = "DELETE".toList →
        handle peeraddr cat plan r1 = ⟨["ERROR D1\n".toList], cat, Control.ready⟩) ∧
      (l1.take 7 = "REQUEST".toList →
        handle peeraddr cat plan r1 = ⟨["ERROR R1\n".toList], cat, Control.ready⟩)) := by
  subst h1 h2
  refine ⟨fun ha hb ht => ?_, fun ha hb ht => ?_, fun ha hb ht => ?_, fun hnb => ?_⟩
  · exact handle_add_congr peeraddr cat plan r1 r2 ha hb (by rw [ht])
  · exact handle_delete_congr peeraddr cat plan r1 r2 ha hb (by rw [ht])
  · exact handle_request_congr peeraddr cat plan r1 r2 ha hb (by rw [ht])
  · have htail : (tokens (clean_string (recv_msg r1).2)).tail = [] := by
      rw [tokens_no_blank hnb]
      split_ifs <;> rfl
    refine ⟨fun hv => ?_, fun hv => ?_, fun hv => ?_⟩
    · rw [handle_add peeraddr cat plan r1 hv, htail]
    · rw [handle_delete peeraddr cat plan r1 hv, htail]
    · rw [handle_request peeraddr cat plan r1 hv, htail]

/-- Claim C21 at the lines of the specification: `ADDENDUM foo h 1` is
handled as `ADD foo h 1`, which adds the file foo with hash h and size 1;
`ADDfoo`, `DELETEfoo` and `REQUESTfoo` are answered `ERROR A1`, `ERROR D1`
and `ERROR R1`. -/
theorem verb_prefix_match_witness :
    handle "10.0.0.1".toList [] none "ADDENDUM foo h 1\n".toList =
      handle "10.0.0.1".toList [] none "ADD foo h 1\n".toList ∧
    handle "10.0.0.1".toList [] none "ADD foo h 1\n".toList =
      ⟨["OK\n".toList], [⟨"foo".toList, "h".toList, 1, "10.0.0.1".toList⟩],
        Control.ready⟩ ∧
    handle "10.0.0.1".toList [] none "ADDfoo\n".toList =
      ⟨["ERROR A1\n".toList], [], Control.ready⟩ ∧
    handle "10.0.0.1".toList [] none "DELETEfoo\n".toList =
      ⟨["ERROR D1\n".toList], [], Control.ready⟩ ∧
    handle "10.0.0.1".toList [] none "REQUESTfoo\n".toList =
      ⟨["ERROR R1\n".toList], [], Control.ready⟩ :=
  ⟨(verb_prefix_match "10.0.0.1".toList [] none "ADDENDUM foo h 1\n".toList
      "ADD foo h 1\n".toList "ADDENDUM foo h 1".toList "ADD foo h 1".toList
      (by decide) (by decide)).1 (by decide) (by decide) (by decide),
   by decide,
   ((verb_prefix_match "10.0.0.1".toList [] none "ADDfoo\n".toList
      "ADDfoo\n".toList "ADDfoo".toList "ADDfoo".toList
      (by decide) (by decide)).2.2.2 (by decide)).1 (by decide),
   ((verb_prefix_match "10.0.0.1".toList [] none "DELETEfoo\n".toList
      "DELETEfoo\n".toList "DELETEfoo".toList "DELETEfoo".toList
      (by decide) (by decide)).2.2.2 (by decide)).2.1 (by decide),
   ((verb_prefix_match "10.0.0.1".toList [] none "REQUESTfoo\n".toList
      "REQUESTfoo\n".toList "REQUESTfoo".toList "REQUESTfoo".toList
      (by decide) (by decide)).2.2.2 (by decide)).2.2 (by decide)⟩

/-- Claim C24: token splitting ignores runs of blanks and surplus tokens.
Two ADD lines whose first three tokens after the verb word agree (two DELETE
lines with the same first two, two REQUEST lines with the same first one)
get the same reply and leave the same table, whatever the table and the
store.  The tokens of a line do not change when a blank is doubled or put
at the end, and tokens put after a line leave its first tokens in place. -/
theorem token_splitting (peeraddr : List Char) (cat : Catalog)
    (plan : Option FaultPlan) (r1 r2 l1 l2 : List Char)
    (h1 : clean_string (recv_msg r1).2 = l1) (h2 : clean_string (recv_msg r2).2 = l2) :
    (l1.take 3 = "ADD".toList → l2.take 3 = "ADD".toList →
      (tokens l1).tail.take 3 = (tokens l2).tail.take 3 →
      handle peeraddr cat plan r1 = handle peeraddr cat plan r2) ∧
    (l1.take 6 = "DELETE".toList → l2.take 6 = "DELETE".toList →
      (tokens l1).tail.take 2 = (tokens l2).tail.take 2 →
      handle peeraddr cat plan r1 = handle peeraddr cat plan r2) ∧
    (l1.take 7 = "REQUEST".toList → l2.take 7 = "REQUEST".toList →
      (tokens l1).tail.take 1 = (tokens l2).tail.take 1 →
      handle peeraddr cat plan r1 = handle peeraddr cat plan r2) ∧
    (∀ a b : List Char, tokens (a ++ ' ' :: ' ' :: b) = tokens (a ++ ' ' :: b)) ∧
    (∀ a : List Char, tokens (a ++ [' ']) = tokens a) ∧
    (∀ (a extra : List Char) (k : Nat), k ≤ (tokens a).tail.length →
      (tokens (a ++ ' ' :: extra)).tail.take k = (tokens a).tail.take k) := by
  subst h1 h2
  refine ⟨handle_add_congr peeraddr cat plan r1 r2,
    handle_delete_congr peeraddr cat plan r1 r2,
    handle_request_congr peeraddr cat plan r1 r2, fun a b => ?_, fun a => ?_,
    fun a extra k hk => ?_⟩
  · rw [tokens_append_blank, tokens_blank_cons, tokens_append_blank]
  · rw [tokens_append_blank, tokens_nil, List.append_nil]
  · rw [tokens_append_blank]
    cases hta : tokens a with
    | nil =>
      rw [hta] at hk
      have hk0 : k = 0 := by simpa using hk
      subst hk0
      simp
    | cons x xs =>
      rw [hta] at hk
      simp only [List.tail_cons] at hk
      simp only [List.cons_append, List.tail_cons]
      exact List.take_append_of_le_length hk

/-- Claim C24 on the line `ADD song.mp3 abc123 4096` and the same line with
runs of blanks, a blank at the end and two further tokens: both are
answered `OK` and leave the same table. -/
theorem token_splitting_witness :
    handle "10.0.0.1".toList [] none "ADD   song.mp3  abc123 4096  x y \n".toList =
      handle "10.0.0.1".toList [] none "ADD song.mp3 abc123 4096\n".toList ∧
    handle "10.0.0.1".toList [] none "ADD song.mp3 abc123 4096\n".toList =
      ⟨["OK\n".toList],
        [⟨"song.mp3".toList, "abc123".toList, 4096, "10.0.0.1".toList⟩],
        Control.ready⟩ :=
  ⟨(token_splitting "10.0.0.1".toList [] none
      "ADD   song.mp3  abc123 4096  x y \n".toList "ADD song.mp3 abc123 4096\n".toList
      "ADD   song.mp3  abc123 4096  x y ".toList "ADD song.mp3 abc123 4096".toList
      (by decide) (by decide)).1 (by decide) (by decide) (by decide),
   by decide⟩


/-! ## The port option -/

/-- An argument that is none of the flags ends the process with
`exit(-1)`, whatever follows it. -/
theorem parse_arguments_unknown (cfg : Config) (v : List Char) (rest : List (List Char))
    (hv : v ∉ flags) :
    parse_arguments cfg (v :: rest) =
      ⟨cfg, [ArgMessage.unknownParameter v], some (-1)⟩ := by
  simp only [flags, List.mem_cons, List.mem_singleton, List.not_mem_nil, or_false,
    not_or] at hv
  obtain ⟨h1, h2, h3, h4, h5, h6, h7, h8, h9, h10, h11, h12⟩ := hv
  cases rest with
  | nil =>
    rw [parse_arguments]
    simp only [h1, h2, h3, h4, h5, h6, h7, h8, h9, h10, h11, h12, or_self, if_false]
  | cons w ws =>
    rw [parse_arguments]
    simp only [h1, h2, h3, h4, h5, h6, h7, h8, h9, h10, h11, h12, or_self, if_false]

/-- A digit string is none of the flags. -/
theorem isDigits_not_flag {v : List Char} (hv : isDigits v = true) : v ∉ flags := by
  intro hmem
  simp only [flags, List.mem_cons, List.mem_singleton, List.not_mem_nil, or_false] at hmem
  rcases hmem with h | h | h | h | h | h | h | h | h | h | h | h <;>
    (subst h; exact absurd hv (by decide))

/-- The port flag followed by a digit string of value 0..65535: the string
becomes the port and the loop goes on after it. -/
theorem parse_arguments_port_adopted (cfg : Config) (a v : List Char)
    (rest : List (List Char)) (ha : a = "-p".toList ∨ a = "--port".toList)
    (hv : isDigits v = true) (hr : digitsValue v ≤ 65535) :
    parse_arguments cfg (a :: v :: rest) =
      parse_arguments
        ⟨cfg.daemonized, cfg.lock_location, v, cfg.queue_length, cfg.num_threads⟩ rest := by
  have hat : atoi v = (digitsValue v : Int) :=
    (atoi_small hv (lt_of_le_of_lt hr (by norm_num))).1
  have hval : validate_int v ≠ 0 := by
    rw [isDigits_validate hv]
    decide
  have hrange : atoi v ≥ 0 ∧ atoi v ≤ MAX_PORT := by
    rw [hat]
    refine ⟨Int.ofNat_nonneg _, ?_⟩
    unfold MAX_PORT
    exact_mod_cast hr
  rcases ha with rfl | rfl
  · rw [parse_arguments, if_neg (by decide), if_neg (by decide), if_neg (by decide),
      if_pos (by decide), if_pos hval, if_pos hrange]
  · rw [parse_arguments, if_neg (by decide), if_neg (by decide), if_neg (by decide),
      if_pos (by decide), if_pos hval, if_pos hrange]

/-- The port flag followed by a value that `validate_int` rejects and that is
no flag: after the message `invalid port number specified, defaulting to
6600` the value is read as an argument, and the process ends with
`exit(-1)`. -/
theorem parse_arguments_port_invalid (cfg : Config) (a v : List Char)
    (rest : List (List Char)) (ha : a = "-p".toList ∨ a = "--port".toList)
    (hv : validate_int v = 0) (hflag : v ∉ flags) :
    parse_arguments cfg (a :: v :: rest) =
      ⟨cfg, [ArgMessage.portInvalid, ArgMessage.unknownParameter v], some (-1)⟩ := by
  have hval : ¬ validate_int v ≠ 0 := by
    rw [hv]
    decide
  rcases ha with rfl | rfl
  · rw [parse_arguments, if_neg (by decide), if_neg (by decide), if_neg (by decide),
      if_pos (by decide), if_neg hval, parse_arguments_unknown cfg v rest hflag]
    rfl
  · rw [parse_arguments, if_neg (by decide), if_neg (by decide), if_neg (by decide),
      if_pos (by decide), if_neg hval, parse_arguments_unknown cfg v rest hflag]
    rfl

/-- The port flag followed by a digit string of value 65536..2^31-1: after
the message `port lies outside valid range (0-65535), defaulting to 6600` the
value is read as an argument, and the process ends with `exit(-1)`. -/
theorem parse_arguments_port_range (cfg : Config) (a v : List Char)
    (rest : List (List Char)) (ha : a = "-p".toList ∨ a = "--port".toList)
    (hv : isDigits v = true) (hlo : 65535 < digitsValue v) (hhi : digitsValue v < 2 ^ 31) :
    parse_arguments cfg (a :: v :: rest) =
      ⟨cfg, [ArgMessage.portRange, ArgMessage.unknownParameter v], some (-1)⟩ := by
  have hat : atoi v = (digitsValue v : Int) := (atoi_small hv hhi).1
  have hval : validate_int v ≠ 0 := by
    rw [isDigits_validate hv]
    decide
  have hrange : ¬ (atoi v ≥ 0 ∧ atoi v ≤ MAX_PORT) := by
    rw [hat]
    unfold MAX_PORT
    intro h
    have h2 : digitsValue v ≤ 65535 := by exact_mod_cast h.2
    omega
  rcases ha with rfl | rfl
  · rw [parse_arguments, if_neg (by decide), if_neg (by decide), if_neg (by decide),
      if_pos (by decide), if_pos hval, if_neg hrange,
      parse_arguments_unknown cfg v rest (isDigits_not_flag hv)]
    rfl
  · rw [parse_arguments, if_neg (by decide), if_neg (by decide), if_neg (by decide),
      if_pos (by decide), if_pos hval, if_neg hrange,
      parse_arguments_unknown cfg v rest (isDigits_not_flag hv)]
    rfl

/-- Claim C22 on the command lines `p2pd --port abc`, `p2pd -p 70000 -d`,
`p2pd -p 4294967296 -d` and `p2pd -p 8080 -d`.  After the message for the
rejected value `abc` or `70000` the loop reads the value as an argument of
its own and ends the process with `exit(-1)`: parsing does not go on, and
the flag `-d` after `70000` is not read.  The digit string 4294967296, whose
value lies outside 0..65535, is adopted as the port, its value being 0 as an
`int`.  The digit string 8080 is adopted and parsing goes on. -/
theorem port_rejected_value_ends_process :
    parse_arguments defaults ["--port".toList, "abc".toList] =
      ⟨defaults, [ArgMessage.portInvalid, ArgMessage.unknownParameter "abc".toList],
        some (-1)⟩ ∧
    parse_arguments defaults ["-p".toList, "70000".toList, "-d".toList] =
      ⟨defaults, [ArgMessage.portRange, ArgMessage.unknownParameter "70000".toList],
        some (-1)⟩ ∧
    parse_arguments defaults ["-p".toList, "4294967296".toList, "-d".toList] =
      ⟨⟨1, LOCKFILE, "4294967296".toList, QUEUE_LENGTH, NUM_THREADS⟩, [], none⟩ ∧
    parse_arguments defaults ["-p".toList, "8080".toList, "-d".toList] =
      ⟨⟨1, LOCKFILE, "8080".toList, QUEUE_LENGTH, NUM_THREADS⟩, [], none⟩ := by
  decide


/-! ## Rows of two sessions of one address -/

/-- Claim C23 as stated fails when the store fails during the purge of the
first session.  Two sessions of address 10.0.0.1: the second adds a file and
stays connected, then the first connects and quits, and its purge ends with
`SQLITE_ERROR`: the row announced by the second session is still in the
table after the teardown of the first.  With the purge working the same
teardown removes it. -/
theorem second_session_rows_survive_failed_purge :
    handle "10.0.0.1".toList [] none "ADD song.mp3 abc123 4096\n".toList =
      ⟨["OK\n".toList], [⟨"song.mp3".toList, "abc123".toList, 4096, "10.0.0.1".toList⟩],
        Control.ready⟩ ∧
    p2p "10.0.0.1".toList 2
        [⟨"song.mp3".toList, "abc123".toList, 4096, "10.0.0.1".toList⟩]
        ⟨[], [⟨"CONNECT\n".toList, none⟩, ⟨"QUIT\n".toList, none⟩],
          some ⟨0, Fault.error⟩, 0⟩ =
      ⟨[banner, "HELLO\n".toList, "GOODBYE\n".toList],
        [⟨"song.mp3".toList, "abc123".toList, 4096, "10.0.0.1".toList⟩], 1, false,
        some (-1)⟩ ∧
    p2p "10.0.0.1".toList 2
        [⟨"song.mp3".toList, "abc123".toList, 4096, "10.0.0.1".toList⟩]
        ⟨[], [⟨"CONNECT\n".toList, none⟩, ⟨"QUIT\n".toList, none⟩], none, 0⟩ =
      ⟨[banner, "HELLO\n".toList, "GOODBYE\n".toList], [], 1, true, some 0⟩ := by
  decide

/-- Claim C23, amended: rows belong to the address of the peer, not to the
connection.  Take two sessions of the same address p (a printed network
address, without quote character), any table, and well-formed f, h, s
(tokens without quote character, s a digit string), with the store working.
After `ADD f h s` on the second session, which stays in READY state, the
table holds a row (f, h, p).  If the first session then runs and ends its
command loop by QUIT or by a fatal store error, and its purge does not fail,
the table after its teardown holds no row of p: it is the table at the start
of the teardown without the rows of p.  And `DELETE f h` on the first
session is answered `OK` and leaves the table without any row (f, h, p), all
other rows in place. -/
theorem rows_owned_by_address (p : List Char) (cat : Catalog) (c_count : Int)
    (recvAdd recvDel f h s : List Char) (env : Env)
    (hp : noQuote p = true)
    (hf : isToken f = true) (hh : isToken h = true) (hs : isDigits s = true)
    (qf : noQuote f = true) (qh : noQuote h = true)
    (hadd : clean_string (recv_msg recvAdd).2 = addLine f h s)
    (hdel : clean_string (recv_msg recvDel).2 = deleteLine f h)
    (hexit :
      (session_loops p env.in0 (handle p cat none recvAdd).cat env.events).exit = Exit.quit ∨
      (session_loops p env.in0 (handle p cat none recvAdd).cat env.events).exit = Exit.fatal)
    (hstore : failsAt env.purge 0 = none) :
    (handle p cat none recvAdd).ctl = Control.ready ∧
    (∃ r ∈ (handle p cat none recvAdd).cat, r.file = f ∧ r.hash = h ∧ r.peer = p) ∧
    (∀ r ∈ (p2p p c_count (handle p cat none recvAdd).cat env).cat, r.peer ≠ p) ∧
    (p2p p c_count (handle p cat none recvAdd).cat env).cat =
      (session_loops p env.in0 (handle p cat none recvAdd).cat env.events).cat.filter
        (fun r => decide (r.peer ≠ p)) ∧
    handle p (handle p cat none recvAdd).cat none recvDel =
      ⟨["OK\n".toList],
        (handle p cat none recvAdd).cat.filter
          (fun r => ! decide (r.file = f ∧ r.hash = h ∧ r.peer = p)),
        Control.ready⟩ ∧
    (∀ r ∈ (handle p (handle p cat none recvAdd).cat none recvDel).cat,
      ¬ (r.file = f ∧ r.hash = h ∧ r.peer = p)) := by
  have hA := add_effect p cat recvAdd f h s f h p hadd hf hh hs
    (sqlText_noQuote qf) (sqlText_noQuote qh) (sqlText_noQuote hp)
  have hD := delete_effect p (handle p cat none recvAdd).cat recvDel f h f h p hdel hf hh
    (sqlText_noQuote qf) (sqlText_noQuote qh) (sqlText_noQuote hp)
  have hready : (handle p cat none recvAdd).ctl = Control.ready ∧
      ∃ r ∈ (handle p cat none recvAdd).cat, r.file = f ∧ r.hash = h ∧ r.peer = p := by
    by_cases hex : ∃ r ∈ cat, r.file = f ∧ r.hash = h ∧ r.peer = p
    · rw [hA.1 hex]
      exact ⟨rfl, hex⟩
    · rw [hA.2 hex]
      refine ⟨rfl, ⟨f, h, atoi s, p⟩, ?_, rfl, rfl, rfl⟩
      exact List.mem_append_right _ (List.mem_singleton.mpr rfl)
  have key : (p2p p c_count (handle p cat none recvAdd).cat env).cat =
      (session_loops p env.in0 (handle p cat none recvAdd).cat env.events).cat.filter
        (fun r => decide (r.peer ≠ p)) := by
    unfold p2p
    rcases hexit with hx | hx
    · simp only [hx]
      exact disconnect_purged p _ c_count env.purge env.close_rc hp hstore
    · simp only [hx]
      exact disconnect_purged p _ c_count env.purge env.close_rc hp hstore
  refine ⟨hready.1, hready.2, fun r hr => ?_, key, hD, fun r hr => ?_⟩
  · rw [key, List.mem_filter] at hr
    simpa using hr.2
  · rw [hD, List.mem_filter] at hr
    have h2 := hr.2
    simp only [Bool.not_eq_true', decide_eq_false_iff_not] at h2
    exact h2

/-- Claim C23, amended, on two sessions of address 10.0.0.1 and a table with
a row of peer 10.0.0.2: the second session adds song.mp3, the first one
connects and quits (or sends `DELETE song.mp3 abc123`); only the row of the
other peer is left. -/
theorem rows_owned_by_address_witness :
    (p2p "10.0.0.1".toList 2
        (handle "10.0.0.1".toList
          [⟨"report.pdf".toList, "cafef00d".toList, 1000, "10.0.0.2".toList⟩] none
          "ADD song.mp3 abc123 4096\n".toList).cat
        ⟨[], [⟨"CONNECT\n".toList, none⟩, ⟨"QUIT\n".toList, none⟩], none, 0⟩).cat =
      [⟨"report.pdf".toList, "cafef00d".toList, 1000, "10.0.0.2".toList⟩] ∧
    handle "10.0.0.1".toList
        (handle "10.0.0.1".toList
          [⟨"report.pdf".toList, "cafef00d".toList, 1000, "10.0.0.2".toList⟩] none
          "ADD song.mp3 abc123 4096\n".toList).cat none
        "DELETE song.mp3 abc123\n".toList =
      ⟨["OK\n".toList],
        (handle "10.0.0.1".toList
          [⟨"report.pdf".toList, "cafef00d".toList, 1000, "10.0.0.2".toList⟩] none
          "ADD song.mp3 abc123 4096\n".toList).cat.filter
          (fun r => ! decide (r.file = "song.mp3".toList ∧ r.hash = "abc123".toList ∧
            r.peer = "10.0.0.1".toList)),
        Control.ready⟩ ∧
    (handle "10.0.0.1".toList
        (handle "10.0.0.1".toList
          [⟨"report.pdf".toList, "cafef00d".toList, 1000, "10.0.0.2".toList⟩] none
          "ADD song.mp3 abc123 4096\n".toList).cat none
        "DELETE song.mp3 abc123\n".toList).cat =
      [⟨"report.pdf".toList, "cafef00d".toList, 1000, "10.0.0.2".toList⟩] :=
  ⟨by decide,
   (rows_owned_by_address "10.0.0.1".toList
      [⟨"report.pdf".toList, "cafef00d".toList, 1000, "10.0.0.2".toList⟩] 2
      "ADD song.mp3 abc123 4096\n".toList "DELETE song.mp3 abc123\n".toList
      "song.mp3".toList "abc123".toList "4096".toList
      ⟨[], [⟨"CONNECT\n".toList, none⟩, ⟨"QUIT\n".toList, none⟩], none, 0⟩
      (by decide) (by decide) (by decide) (by decide) (by decide) (by decide)
      (by decide) (by decide) (by decide) (by decide)).2.2.2.2.1,
   by decide⟩

end P2pd
